import Mathlib

/-!
Verification of the multiplayer Battleship service (battleship.py, server.py,
client.py) against its natural-language specification.

The development shallowly embeds the parts of the program the claims are
about: the pure board engine, the framed wire protocol (CRC-32 checksums,
the client's receive loop, the server's reliable send), coordinate parsing,
and the per-turn / lobby state transitions of the game server.  Python
strings are modelled as `List Char`, byte strings as `List Nat` (each entry
below 256), machine integers as `Nat` with explicit reduction where overflow
matters, and fallible Python code as `Except`/`Option` values.
-/

set_option maxRecDepth 10000

namespace Spec2Proof

/-! ## Python string primitives

`pyIsSpace` lists the ASCII characters Python's `str.strip()` removes (the
program only ever strips ASCII protocol text).  `pyStrip` is `str.strip()`:
drop leading and trailing whitespace. -/

def pyIsSpace (c : Char) : Bool :=
  c = ' ' || c = '\t' || c = '\n' || c = '\r' || c = '\x0b' || c = '\x0c'

def pyStrip (s : List Char) : List Char :=
  ((s.dropWhile pyIsSpace).reverse.dropWhile pyIsSpace).reverse

/-- Python `str.upper()` over the ASCII range used by the game. -/
def pyUpper (s : List Char) : List Char := s.map Char.toUpper

/-- Python `str.lower()` over the ASCII range used by the game. -/
def pyLower (s : List Char) : List Char := s.map Char.toLower

/-! ## Board engine (battleship.py)

`Board.__init__` builds two 10×10 grids of `'.'` and an empty ship list.
Grids are modelled as total functions from coordinates to characters; the
in-range discipline of the callers keeps all accesses inside `0..9`. -/

def BOARD_SIZE : Nat := 10

/-- The ship roster `SHIPS` of battleship.py. -/
def SHIPS : List (String × Nat) :=
  [("Carrier", 5), ("Battleship", 4), ("Cruiser", 3), ("Submarine", 3), ("Destroyer", 2)]

/-- One entry of `Board.placed_ships`: a dict with the ship's name and its
set of remaining (un-hit) cells. -/
structure Ship where
  name : String
  positions : Finset (Nat × Nat)
deriving DecidableEq

structure Board where
  size : Nat
  hidden_grid : Nat → Nat → Char
  display_grid : Nat → Nat → Char
  placed_ships : List Ship

/-- Assignment `grid[row][col] = v` on a functional grid. -/
def gridUpdate (g : Nat → Nat → Char) (row col : Nat) (v : Char) : Nat → Nat → Char :=
  fun r c => if r = row ∧ c = col then v else g r c

/-- `Board(size)`: fresh board, all cells `'.'`, no ships. -/
def emptyBoard : Board :=
  { size := BOARD_SIZE
    hidden_grid := fun _ _ => '.'
    display_grid := fun _ _ => '.'
    placed_ships := [] }

/-- `Board.can_place_ship`: the ship must fit inside the grid and all its
cells must currently be `'.'`. -/
def Board.can_place_ship (b : Board) (row col ship_size orientation : Nat) : Bool :=
  if orientation = 0 then
    if b.size < col + ship_size then false
    else (List.range ship_size).all fun i => b.hidden_grid row (col + i) = '.'
  else
    if b.size < row + ship_size then false
    else (List.range ship_size).all fun i => b.hidden_grid (row + i) col = '.'

/-- The set of cells `Board.do_place_ship` occupies (`occupied` in the
source): `ship_size` consecutive cells rightwards (orientation 0) or
downwards (orientation 1). -/
def shipCells (row col ship_size orientation : Nat) : Finset (Nat × Nat) :=
  if orientation = 0 then (Finset.range ship_size).image fun i => (row, col + i)
  else (Finset.range ship_size).image fun i => (row + i, col)

/-- `Board.do_place_ship`: mark every occupied cell `'S'` on the hidden grid
and return the occupied set. -/
def Board.do_place_ship (b : Board) (row col ship_size orientation : Nat) :
    Finset (Nat × Nat) × Board :=
  let occupied := shipCells row col ship_size orientation
  (occupied,
    { b with hidden_grid := fun r c => if (r, c) ∈ occupied then 'S' else b.hidden_grid r c })

/-- One placement step as the placement loops perform it: `do_place_ship`
followed by appending the `name`/`positions` dict to `placed_ships`. -/
def Board.placeShip (b : Board) (name : String) (row col ship_size orientation : Nat) : Board :=
  let p := b.do_place_ship row col ship_size orientation
  { p.2 with placed_ships := p.2.placed_ships ++ [⟨name, p.1⟩] }

/-- `Board._mark_hit_and_check_sunk`: remove `(row, col)` from the first ship
whose positions contain it; report the ship's name when its position set
becomes empty.  The `break` in the source stops the scan after the first
matching ship. -/
def markHitAndCheckSunk : List Ship → Nat → Nat → List Ship × Option String
  | [], _, _ => ([], none)
  | ship :: rest, row, col =>
    if (row, col) ∈ ship.positions then
      let positions := ship.positions.erase (row, col)
      (⟨ship.name, positions⟩ :: rest,
        if positions.card = 0 then some ship.name else none)
    else
      let r := markHitAndCheckSunk rest row col
      (ship :: r.1, r.2)

/-- `Board.fire_at`: `'S'` becomes a hit (both grids updated, ship list
adjusted), `'.'` becomes a miss, anything else (`'X'`, `'o'`, and the
defensive final branch of the source) reports `already_shot`. -/
def Board.fire_at (b : Board) (row col : Nat) : (String × Option String) × Board :=
  let cell := b.hidden_grid row col
  if cell = 'S' then
    let m := markHitAndCheckSunk b.placed_ships row col
    ((("hit" : String), m.2),
      { b with
          hidden_grid := gridUpdate b.hidden_grid row col 'X'
          display_grid := gridUpdate b.display_grid row col 'X'
          placed_ships := m.1 })
  else if cell = '.' then
    ((("miss" : String), none),
      { b with
          hidden_grid := gridUpdate b.hidden_grid row col 'o'
          display_grid := gridUpdate b.display_grid row col 'o' })
  else
    ((("already_shot" : String), none), b)

/-- `Board.all_ships_sunk`: no ship has a remaining position. -/
def Board.all_ships_sunk (b : Board) : Bool :=
  b.placed_ships.all fun ship => ship.positions.card == 0

theorem gridUpdate_self (g : Nat → Nat → Char) (row col : Nat) (v : Char) :
    gridUpdate g row col v row col = v := by
  simp [gridUpdate]

theorem gridUpdate_ne {g : Nat → Nat → Char} {row col : Nat} {v : Char} {r c : Nat}
    (h : ¬(r = row ∧ c = col)) : gridUpdate g row col v r c = g r c := by
  simp only [gridUpdate]
  rw [if_neg h]

/-- C4: after `fire_at (row, col)` returns anything other than
`already_shot`, firing at the same cell of the resulting board returns
`already_shot`. -/
theorem fire_at_then_already_shot (b : Board) (row col : Nat)
    (_hr : row < 10) (_hc : col < 10)
    (h : ((b.fire_at row col).1).1 ≠ "already_shot") :
    ((((b.fire_at row col).2).fire_at row col).1).1 = "already_shot" := by
  by_cases hS : b.hidden_grid row col = 'S'
  · simp [Board.fire_at, hS, gridUpdate_self]
  · by_cases hD : b.hidden_grid row col = '.'
    · simp [Board.fire_at, hS, hD, gridUpdate_self]
    · exact absurd (by simp [Board.fire_at, hS, hD]) h

/-- Witness for C4 at a concrete board: firing at the empty cell `(0, 0)` of
the fresh board is not `already_shot`, and refiring there is. -/
theorem fire_at_then_already_shot_witness :
    ((emptyBoard.fire_at 0 0).1).1 ≠ "already_shot" ∧
      ((((emptyBoard.fire_at 0 0).2).fire_at 0 0).1).1 = "already_shot" :=
  ⟨by decide, fire_at_then_already_shot emptyBoard 0 0 (by decide) (by decide) (by decide)⟩

/-! ## Reachable boards and the ship-count invariant (C5)

`ReachableG b os` says board `b` arises from the fresh board by valid
placements (recording, as ghost state `os`, the original cell set of each
placed ship in order) and `fire_at` calls.  The states the game visits —
valid placements followed by an arbitrary sequence of shots — are exactly
instances of this relation (it also allows interleaving, which only makes
the proved invariant stronger). -/

inductive ReachableG : Board → List (Finset (Nat × Nat)) → Prop
  | init : ReachableG emptyBoard []
  | place (b : Board) (os : List (Finset (Nat × Nat))) (name : String)
      (row col ship_size orientation : Nat) :
      ReachableG b os →
      b.can_place_ship row col ship_size orientation = true →
      ReachableG (b.placeShip name row col ship_size orientation)
        (os ++ [shipCells row col ship_size orientation])
  | fire (b : Board) (os : List (Finset (Nat × Nat))) (row col : Nat) :
      ReachableG b os → ReachableG (b.fire_at row col).2 os

/-- The number of hits scored on a ship whose original cells were `O`:
original cells now shown as `'X'` on the hidden grid. -/
def hitsOn (b : Board) (O : Finset (Nat × Nat)) : Nat :=
  (O.filter fun p => b.hidden_grid p.1 p.2 = 'X').card

/-- `shipCells` always consists of `ship_size` distinct cells, so a ship's
original cell set has cardinality equal to its size. -/
theorem shipCells_card (row col ship_size orientation : Nat) :
    (shipCells row col ship_size orientation).card = ship_size := by
  unfold shipCells
  split
  · rw [Finset.card_image_of_injective _ (fun i j h => by
      simpa using congrArg Prod.snd h)]
    exact Finset.card_range ship_size
  · rw [Finset.card_image_of_injective _ (fun i j h => by
      simpa using congrArg Prod.fst h)]
    exact Finset.card_range ship_size

/-- Pointwise correspondence between the current ship list and the ghost
list of original cell sets: remaining positions are a subset of the original
cells, and an original cell shows `'S'` while un-hit and `'X'` once hit. -/
inductive Corr (g : Nat → Nat → Char) : List Ship → List (Finset (Nat × Nat)) → Prop
  | nil : Corr g [] []
  | cons {s : Ship} {O : Finset (Nat × Nat)} {ships : List Ship}
      {os : List (Finset (Nat × Nat))}
      (hsub : s.positions ⊆ O)
      (hcell : ∀ p ∈ O,
        (p ∈ s.positions → g p.1 p.2 = 'S') ∧ (p ∉ s.positions → g p.1 p.2 = 'X'))
      (tail : Corr g ships os) : Corr g (s :: ships) (O :: os)

/-- The full invariant tying a board to the ghost placement record. -/
structure Inv (b : Board) (os : List (Finset (Nat × Nat))) : Prop where
  corr : Corr b.hidden_grid b.placed_ships os
  disj : os.Pairwise fun O₁ O₂ => ∀ p ∈ O₁, p ∉ O₂
  shipS : ∀ row col, b.hidden_grid row col = 'S' →
    ∃ s ∈ b.placed_ships, (row, col) ∈ s.positions

theorem Corr.length_eq {g : Nat → Nat → Char} {ships : List Ship}
    {os : List (Finset (Nat × Nat))} (h : Corr g ships os) :
    ships.length = os.length := by
  induction h with
  | nil => rfl
  | cons _ _ _ ih => simpa using ih

/-- A grid change that leaves every original cell alone preserves `Corr`. -/
theorem Corr.congrGrid {g g' : Nat → Nat → Char} {ships : List Ship}
    {os : List (Finset (Nat × Nat))} (h : Corr g ships os)
    (hg : ∀ O ∈ os, ∀ p ∈ O, g' p.1 p.2 = g p.1 p.2) : Corr g' ships os := by
  induction h with
  | nil => exact .nil
  | cons hsub hcell _ ih =>
    refine .cons hsub (fun p hp => ?_) (ih fun O hO => hg O (by simp [hO]))
    have := hcell p hp
    rw [hg _ (by simp) p hp]
    exact this

theorem Corr.append {g : Nat → Nat → Char} {l₁ l₂ : List Ship}
    {o₁ o₂ : List (Finset (Nat × Nat))} (h₁ : Corr g l₁ o₁) (h₂ : Corr g l₂ o₂) :
    Corr g (l₁ ++ l₂) (o₁ ++ o₂) := by
  induction h₁ with
  | nil => simpa using h₂
  | cons hsub hcell _ ih => exact .cons hsub hcell ih

/-- An original cell never shows `'.'`. -/
theorem Corr.not_dot {g : Nat → Nat → Char} {ships : List Ship}
    {os : List (Finset (Nat × Nat))} (h : Corr g ships os)
    {O : Finset (Nat × Nat)} (hO : O ∈ os) {p : Nat × Nat} (hp : p ∈ O) :
    g p.1 p.2 ≠ '.' := by
  induction h with
  | nil => simp at hO
  | @cons s O' ships' os' hsub hcell _tail ih =>
    rcases List.mem_cons.1 hO with rfl | hO'
    · rcases (hcell p hp) with ⟨hS, hX⟩
      by_cases hmem : p ∈ s.positions
      · rw [hS hmem]; decide
      · rw [hX hmem]; decide
    · exact ih hO'

/-- Cells free at placement time (`can_place_ship`) are exactly the cells the
ship will occupy, and they currently read `'.'`. -/
theorem can_place_free {b : Board} {row col ship_size orientation : Nat}
    (h : b.can_place_ship row col ship_size orientation = true) :
    ∀ p ∈ shipCells row col ship_size orientation, b.hidden_grid p.1 p.2 = '.' := by
  intro p hp
  by_cases ho : orientation = 0
  · rw [Board.can_place_ship, if_pos ho] at h
    rw [shipCells, if_pos ho] at hp
    by_cases hsz : b.size < col + ship_size
    · rw [if_pos hsz] at h; exact absurd h (by simp)
    · rw [if_neg hsz, List.all_eq_true] at h
      simp only [Finset.mem_image, Finset.mem_range] at hp
      obtain ⟨i, hi, rfl⟩ := hp
      simpa using h i (List.mem_range.2 hi)
  · rw [Board.can_place_ship, if_neg ho] at h
    rw [shipCells, if_neg ho] at hp
    by_cases hsz : b.size < row + ship_size
    · rw [if_pos hsz] at h; exact absurd h (by simp)
    · rw [if_neg hsz, List.all_eq_true] at h
      simp only [Finset.mem_image, Finset.mem_range] at hp
      obtain ⟨i, hi, rfl⟩ := hp
      simpa using h i (List.mem_range.2 hi)

/-- Convenient unfolding of `Board.placeShip`. -/
theorem placeShip_def (b : Board) (name : String) (row col ship_size orientation : Nat) :
    b.placeShip name row col ship_size orientation =
      { b with
          hidden_grid := fun r c =>
            if (r, c) ∈ shipCells row col ship_size orientation then 'S'
            else b.hidden_grid r c
          placed_ships :=
            b.placed_ships ++ [⟨name, shipCells row col ship_size orientation⟩] } := rfl

/-- Indexed reading of `Corr`. -/
theorem Corr.get {g : Nat → Nat → Char} {ships : List Ship}
    {os : List (Finset (Nat × Nat))} (hc : Corr g ships os) :
    ∀ i (hi : i < ships.length) (hi' : i < os.length),
      (ships.get ⟨i, hi⟩).positions ⊆ os.get ⟨i, hi'⟩ ∧
      ∀ p ∈ os.get ⟨i, hi'⟩,
        (p ∈ (ships.get ⟨i, hi⟩).positions → g p.1 p.2 = 'S') ∧
        (p ∉ (ships.get ⟨i, hi⟩).positions → g p.1 p.2 = 'X') := by
  induction hc with
  | nil => intro i hi; simp at hi
  | cons hsub hcell _tail ih =>
    intro i hi hi'
    match i with
    | 0 => exact ⟨hsub, hcell⟩
    | i + 1 => exact ih i (by simpa using hi) (by simpa using hi')

/-- `Inv` holds for the fresh board. -/
theorem inv_init : Inv emptyBoard [] := by
  refine ⟨.nil, .nil, fun row col h => ?_⟩
  simp [emptyBoard] at h

/-- A valid placement preserves `Inv`. -/
theorem inv_place {b : Board} {os : List (Finset (Nat × Nat))}
    (hInv : Inv b os) {name : String} {row col ship_size orientation : Nat}
    (hcan : b.can_place_ship row col ship_size orientation = true) :
    Inv (b.placeShip name row col ship_size orientation)
      (os ++ [shipCells row col ship_size orientation]) := by
  obtain ⟨hcorr, hdisj, hS⟩ := hInv
  have hfree := can_place_free hcan
  have hold : ∀ O ∈ os, ∀ p ∈ O, p ∉ shipCells row col ship_size orientation := by
    intro O hO p hp hpocc
    exact hcorr.not_dot hO hp (hfree p hpocc)
  rw [placeShip_def]
  refine ⟨?_, ?_, ?_⟩
  · refine Corr.append (hcorr.congrGrid ?_) (Corr.cons le_rfl ?_ .nil)
    · intro O hO p hp
      simp only [Prod.mk.eta]
      rw [if_neg (hold O hO p hp)]
    · intro p hp
      refine ⟨fun _ => ?_, fun hnot => absurd hp hnot⟩
      simp only [Prod.mk.eta]
      rw [if_pos hp]
  · rw [List.pairwise_append]
    refine ⟨hdisj, by simp, ?_⟩
    intro O hO O' hO' p hp
    rcases List.mem_singleton.1 hO' with rfl
    exact hold O hO p hp
  · intro r c h'
    dsimp only at h' ⊢
    by_cases hin : (r, c) ∈ shipCells row col ship_size orientation
    · exact ⟨⟨name, shipCells row col ship_size orientation⟩, by simp, hin⟩
    · rw [if_neg hin] at h'
      obtain ⟨s, hs, hps⟩ := hS r c h'
      exact ⟨s, by simp [hs], hps⟩

/-- A hit (`fire_at` on an `'S'` cell) rewrites the grid cell to `'X'` and
erases the cell from the first ship containing it; `Corr` survives. -/
theorem corr_markHit {g : Nat → Nat → Char} {row col : Nat} (hg : g row col = 'S') :
    ∀ {ships : List Ship} {os : List (Finset (Nat × Nat))}, Corr g ships os →
      os.Pairwise (fun O₁ O₂ => ∀ p ∈ O₁, p ∉ O₂) →
      (∃ s ∈ ships, (row, col) ∈ s.positions) →
      Corr (gridUpdate g row col 'X') (markHitAndCheckSunk ships row col).1 os := by
  intro ships os hc
  induction hc with
  | nil => intro _ hmem; simp at hmem
  | @cons s O ships' os' hsub hcell tail ih =>
    intro hdisj hmem
    by_cases hhead : (row, col) ∈ s.positions
    · have heq : (markHitAndCheckSunk (s :: ships') row col).1 =
          ⟨s.name, s.positions.erase (row, col)⟩ :: ships' := by
        simp [markHitAndCheckSunk, hhead]
      rw [heq]
      have hrcO : (row, col) ∈ O := hsub hhead
      refine Corr.cons ((Finset.erase_subset _ _).trans hsub) ?_ (tail.congrGrid ?_)
      · intro p hp
        constructor
        · intro hpe
          have hne : ¬(p.1 = row ∧ p.2 = col) := by
            intro ⟨h1, h2⟩
            exact Finset.ne_of_mem_erase hpe (by rw [← h1, ← h2])
          rw [gridUpdate_ne hne]
          exact (hcell p hp).1 (Finset.mem_of_mem_erase hpe)
        · intro hpe
          by_cases hpc : p = (row, col)
          · subst hpc
            exact gridUpdate_self _ _ _ _
          · have hne : ¬(p.1 = row ∧ p.2 = col) := by
              intro ⟨h1, h2⟩
              exact hpc (Prod.ext h1 h2)
            have hnp : p ∉ s.positions := fun hin =>
              hpe (Finset.mem_erase.2 ⟨hpc, hin⟩)
            rw [gridUpdate_ne hne]
            exact (hcell p hp).2 hnp
      · intro O' hO' p hp
        have hnot : (row, col) ∉ O' := (List.pairwise_cons.1 hdisj).1 O' hO' _ hrcO
        have hne : ¬(p.1 = row ∧ p.2 = col) := by
          intro ⟨h1, h2⟩
          exact hnot (by rw [← h1, ← h2]; exact hp)
        rw [gridUpdate_ne hne]
    · have hO : (row, col) ∉ O := by
        intro hin
        have := (hcell _ hin).2 hhead
        rw [hg] at this
        exact absurd this (by decide)
      have heq : (markHitAndCheckSunk (s :: ships') row col).1 =
          s :: (markHitAndCheckSunk ships' row col).1 := by
        simp [markHitAndCheckSunk, hhead]
      rw [heq]
      have hmem' : ∃ s' ∈ ships', (row, col) ∈ s'.positions := by
        obtain ⟨s', hs', hps'⟩ := hmem
        rcases List.mem_cons.1 hs' with rfl | h'
        · exact absurd hps' hhead
        · exact ⟨s', h', hps'⟩
      refine Corr.cons hsub ?_ (ih (List.pairwise_cons.1 hdisj).2 hmem')
      · intro p hp
        have hne : ¬(p.1 = row ∧ p.2 = col) := by
          intro ⟨h1, h2⟩
          exact hO (by rw [← h1, ← h2]; exact hp)
        rw [gridUpdate_ne hne]
        exact hcell p hp

/-- Positions surviving a hit elsewhere survive `markHitAndCheckSunk`. -/
theorem markHit_mem_preserved :
    ∀ (ships : List Ship) (row col : Nat) (p : Nat × Nat), p ≠ (row, col) →
      (∃ s ∈ ships, p ∈ s.positions) →
      ∃ s' ∈ (markHitAndCheckSunk ships row col).1, p ∈ s'.positions := by
  intro ships row col p hne
  induction ships with
  | nil => simp
  | cons a rest ih =>
    intro ⟨s, hs, hps⟩
    by_cases hhead : (row, col) ∈ a.positions
    · rcases List.mem_cons.1 hs with rfl | h'
      · exact ⟨⟨s.name, s.positions.erase (row, col)⟩,
          by simp [markHitAndCheckSunk, hhead],
          Finset.mem_erase.2 ⟨hne, hps⟩⟩
      · exact ⟨s, by simp [markHitAndCheckSunk, hhead, h'], hps⟩
    · rcases List.mem_cons.1 hs with rfl | h'
      · exact ⟨s, by simp [markHitAndCheckSunk, hhead], hps⟩
      · obtain ⟨s', hs', hps'⟩ := ih ⟨s, h', hps⟩
        exact ⟨s', by simp [markHitAndCheckSunk, hhead, hs'], hps'⟩

/-- `fire_at` preserves `Inv`. -/
theorem inv_fire {b : Board} {os : List (Finset (Nat × Nat))}
    (hInv : Inv b os) (row col : Nat) : Inv (b.fire_at row col).2 os := by
  obtain ⟨hcorr, hdisj, hS⟩ := hInv
  by_cases hcell : b.hidden_grid row col = 'S'
  · have hb' : (b.fire_at row col).2 =
        { b with
            hidden_grid := gridUpdate b.hidden_grid row col 'X'
            display_grid := gridUpdate b.display_grid row col 'X'
            placed_ships := (markHitAndCheckSunk b.placed_ships row col).1 } := by
      simp [Board.fire_at, hcell]
    rw [hb']
    refine ⟨corr_markHit hcell hcorr hdisj (hS row col hcell), hdisj, ?_⟩
    intro r c h'
    dsimp only at h' ⊢
    have hne : ¬(r = row ∧ c = col) := by
      rintro ⟨rfl, rfl⟩
      rw [gridUpdate_self] at h'
      exact absurd h' (by decide)
    rw [gridUpdate_ne hne] at h'
    refine markHit_mem_preserved _ row col (r, c) ?_ (hS r c h')
    intro hpe
    exact hne ⟨congrArg Prod.fst hpe, congrArg Prod.snd hpe⟩
  · by_cases hdot : b.hidden_grid row col = '.'
    · have hb' : (b.fire_at row col).2 =
          { b with
              hidden_grid := gridUpdate b.hidden_grid row col 'o'
              display_grid := gridUpdate b.display_grid row col 'o' } := by
        simp [Board.fire_at, hcell, hdot]
      rw [hb']
      refine ⟨hcorr.congrGrid ?_, hdisj, ?_⟩
      · intro O hO p hp
        dsimp only
        have hne : ¬(p.1 = row ∧ p.2 = col) := by
          intro ⟨h1, h2⟩
          refine hcorr.not_dot hO hp ?_
          rw [h1, h2, hdot]
        rw [gridUpdate_ne hne]
      · intro r c h'
        dsimp only at h' ⊢
        have hne : ¬(r = row ∧ c = col) := by
          rintro ⟨rfl, rfl⟩
          rw [gridUpdate_self] at h'
          exact absurd h' (by decide)
        rw [gridUpdate_ne hne] at h'
        exact hS r c h'
    · have hb' : (b.fire_at row col).2 = b := by
        simp [Board.fire_at, hcell, hdot]
      rw [hb']
      exact ⟨hcorr, hdisj, hS⟩

/-- Every reachable board satisfies the invariant. -/
theorem reachable_inv {b : Board} {os : List (Finset (Nat × Nat))}
    (h : ReachableG b os) : Inv b os := by
  induction h with
  | init => exact inv_init
  | place _ _ _ _ _ _ _ _ hcan ih => exact inv_place ih hcan
  | fire _ _ row col _ ih => exact inv_fire ih row col

/-- Result component of `_mark_hit_and_check_sunk`: hitting a remaining cell
of the ship at index `i` reports that ship's name exactly when the ship's
remaining positions become empty. -/
theorem corr_markHit_result {g : Nat → Nat → Char} :
    ∀ {ships : List Ship} {os : List (Finset (Nat × Nat))}, Corr g ships os →
      os.Pairwise (fun O₁ O₂ => ∀ p ∈ O₁, p ∉ O₂) →
      ∀ i (hi : i < ships.length) (p : Nat × Nat), p ∈ (ships.get ⟨i, hi⟩).positions →
      (markHitAndCheckSunk ships p.1 p.2).2 =
        (if ((ships.get ⟨i, hi⟩).positions.erase p).card = 0
         then some (ships.get ⟨i, hi⟩).name else none) := by
  intro ships os hc
  induction hc with
  | nil => intro _ i hi; simp at hi
  | @cons s O ships' os' hsub hcell tail ih =>
    intro hdisj i hi p hp
    match i with
    | 0 =>
      simp only [List.get] at hp ⊢
      have hps : (p.1, p.2) ∈ s.positions := by simpa using hp
      simp [markHitAndCheckSunk, hps]
    | i + 1 =>
      have hi2 : i < ships'.length := by simpa using hi
      have hi2' : i < os'.length := by rw [← tail.length_eq]; exact hi2
      simp only [List.get] at hp ⊢
      have hpO : p ∈ os'.get ⟨i, hi2'⟩ := (tail.get i hi2 hi2').1 hp
      have hnot : p ∉ s.positions := by
        intro hin
        exact (List.pairwise_cons.1 hdisj).1 _ (List.get_mem os' i hi2') p (hsub hin) hpO
      have hps : (p.1, p.2) ∉ s.positions := by simpa using hnot
      rw [show (markHitAndCheckSunk (s :: ships') p.1 p.2).2 =
          (markHitAndCheckSunk ships' p.1 p.2).2 by simp [markHitAndCheckSunk, hps]]
      exact ih (List.pairwise_cons.1 hdisj).2 i hi2 p hp

/-- Remaining cells plus hit original cells partition a ship's original
cells, counted. -/
theorem corr_card {g : Nat → Nat → Char} {ships : List Ship}
    {os : List (Finset (Nat × Nat))} (hc : Corr g ships os) :
    ∀ i (hi : i < ships.length) (hi' : i < os.length),
      (ships.get ⟨i, hi⟩).positions.card
        + ((os.get ⟨i, hi'⟩).filter fun p => g p.1 p.2 = 'X').card
        = (os.get ⟨i, hi'⟩).card := by
  intro i hi hi'
  obtain ⟨hsub, hcell⟩ := hc.get i hi hi'
  have hfX : ((os.get ⟨i, hi'⟩).filter fun p => g p.1 p.2 = 'X')
      = os.get ⟨i, hi'⟩ \ (ships.get ⟨i, hi⟩).positions := by
    ext p
    simp only [Finset.mem_filter, Finset.mem_sdiff]
    constructor
    · rintro ⟨hpO, hpX⟩
      refine ⟨hpO, fun hin => ?_⟩
      rw [(hcell p hpO).1 hin] at hpX
      exact absurd hpX (by decide)
    · rintro ⟨hpO, hnin⟩
      exact ⟨hpO, (hcell p hpO).2 hnin⟩
  rw [hfX, Finset.card_sdiff hsub]
  have := Finset.card_le_card hsub
  omega

/-- `all_ships_sunk` is exactly "every placed ship's position set is empty". -/
theorem all_ships_sunk_iff (b : Board) :
    b.all_ships_sunk = true ↔ ∀ s ∈ b.placed_ships, s.positions = ∅ := by
  simp [Board.all_ships_sunk, List.all_eq_true, Finset.card_eq_zero]

/-- C5: on every reachable board, each placed ship's remaining cells plus the
hits scored on it count up to its original cell set (whose size is the
ship's original size, `shipCells_card`); firing on a remaining cell reports
the ship sunk exactly when its remaining position set becomes empty; and
`all_ships_sunk` is true iff every placed ship's position set is empty. -/
theorem ship_count_sunk_invariant (b : Board) (os : List (Finset (Nat × Nat)))
    (h : ReachableG b os) :
    b.placed_ships.length = os.length ∧
    (∀ i (hi : i < b.placed_ships.length) (hi' : i < os.length),
        (b.placed_ships.get ⟨i, hi⟩).positions.card + hitsOn b (os.get ⟨i, hi'⟩)
          = (os.get ⟨i, hi'⟩).card) ∧
    (∀ i (hi : i < b.placed_ships.length),
      ∀ p ∈ (b.placed_ships.get ⟨i, hi⟩).positions,
        (b.fire_at p.1 p.2).1 =
          ("hit",
            if ((b.placed_ships.get ⟨i, hi⟩).positions.erase p).card = 0
            then some (b.placed_ships.get ⟨i, hi⟩).name else none)) ∧
    (b.all_ships_sunk = true ↔ ∀ s ∈ b.placed_ships, s.positions = ∅) := by
  obtain ⟨hcorr, hdisj, hS⟩ := reachable_inv h
  refine ⟨hcorr.length_eq, ?_, ?_, all_ships_sunk_iff b⟩
  · intro i hi hi'
    exact corr_card hcorr i hi hi'
  · intro i hi p hp
    have hi' : i < os.length := hcorr.length_eq ▸ hi
    obtain ⟨hsub, hcell⟩ := hcorr.get i hi hi'
    have hgS : b.hidden_grid p.1 p.2 = 'S' := (hcell p (hsub hp)).1 hp
    have hfire : (b.fire_at p.1 p.2).1 =
        ("hit", (markHitAndCheckSunk b.placed_ships p.1 p.2).2) := by
      simp [Board.fire_at, hgS]
    rw [hfire, corr_markHit_result hcorr hdisj i hi p hp]

/-- The concrete reachable state used by the C5 witness: a Destroyer placed
at `A1 H` on the fresh board. -/
def wBoard1 : Board := emptyBoard.placeShip "Destroyer" 0 0 2 0

theorem wBoard1_reachable : ReachableG wBoard1 [shipCells 0 0 2 0] :=
  ReachableG.place emptyBoard [] "Destroyer" 0 0 2 0 ReachableG.init (by decide)

/-- Witness for C5 at the concrete reachable state `wBoard1`. -/
theorem ship_count_sunk_invariant_witness :
    wBoard1.placed_ships.length = [shipCells 0 0 2 0].length ∧
    (∀ i (hi : i < wBoard1.placed_ships.length) (hi' : i < [shipCells 0 0 2 0].length),
        (wBoard1.placed_ships.get ⟨i, hi⟩).positions.card
            + hitsOn wBoard1 ([shipCells 0 0 2 0].get ⟨i, hi'⟩)
          = ([shipCells 0 0 2 0].get ⟨i, hi'⟩).card) ∧
    (∀ i (hi : i < wBoard1.placed_ships.length),
      ∀ p ∈ (wBoard1.placed_ships.get ⟨i, hi⟩).positions,
        (wBoard1.fire_at p.1 p.2).1 =
          ("hit",
            if ((wBoard1.placed_ships.get ⟨i, hi⟩).positions.erase p).card = 0
            then some (wBoard1.placed_ships.get ⟨i, hi⟩).name else none)) ∧
    (wBoard1.all_ships_sunk = true ↔ ∀ s ∈ wBoard1.placed_ships, s.positions = ∅) :=
  ship_count_sunk_invariant wBoard1 [shipCells 0 0 2 0] wBoard1_reachable

/-! ## CRC-32 and the framed wire protocol (C6, C7, C8)

The program frames every payload message as `f"{zlib.crc32(msg):08x};{msg}"`.
`crc32` below is the algorithm `zlib.crc32` computes: the reflected
IEEE 802.3 CRC-32 (polynomial `0xEDB88320`, initial register `0xFFFFFFFF`,
final complement), processing one byte then eight register bit-steps. -/

def crcPoly : Nat := 0xEDB88320

/-- One bit step of the reflected CRC-32 register. -/
def crcStep1 (x : Nat) : Nat :=
  if x % 2 = 1 then (x >>> 1) ^^^ crcPoly else x >>> 1

/-- Eight bit steps: one byte's worth of register shifting. -/
def crcStep8 (x : Nat) : Nat :=
  crcStep1 (crcStep1 (crcStep1 (crcStep1 (crcStep1 (crcStep1 (crcStep1 (crcStep1 x)))))))

/-- Absorb one byte into the register. -/
def crcUpdate (crc b : Nat) : Nat := crcStep8 (crc ^^^ b)

/-- `zlib.crc32(bytes)` (with the default initial value 0). -/
def crc32 (bytes : List Nat) : Nat :=
  (bytes.foldl crcUpdate 0xFFFFFFFF) ^^^ 0xFFFFFFFF

/-- Every `Char` is a Unicode scalar value below `0x110000`. -/
theorem charToNat_lt (c : Char) : c.toNat < 0x110000 := by
  have h := c.valid
  rcases h with h | h
  · have := c.val.toNat_lt
    unfold Char.toNat
    omega
  · unfold Char.toNat
    omega

/-- UTF-8 encoding of one character, as `str.encode()` produces it. -/
def utf8EncodeChar (c : Char) : List Nat :=
  let n := c.toNat
  if n < 0x80 then [n]
  else if n < 0x800 then [0xC0 + n / 0x40, 0x80 + n % 0x40]
  else if n < 0x10000 then [0xE0 + n / 0x1000, 0x80 + n / 0x40 % 0x40, 0x80 + n % 0x40]
  else [0xF0 + n / 0x40000, 0x80 + n / 0x1000 % 0x40, 0x80 + n / 0x40 % 0x40, 0x80 + n % 0x40]

/-- `str.encode()`: the UTF-8 bytes of a string. -/
def strBytes (s : List Char) : List Nat := s.foldr (fun c acc => utf8EncodeChar c ++ acc) []

theorem utf8EncodeChar_lt (c : Char) : ∀ b ∈ utf8EncodeChar c, b < 256 := by
  have hc := charToNat_lt c
  intro b hb
  simp only [utf8EncodeChar] at hb
  split at hb
  · simp at hb; omega
  · split at hb
    · simp at hb; rcases hb with rfl | rfl <;> omega
    · split at hb
      · simp at hb
        rcases hb with rfl | rfl | rfl
        · omega
        · have : c.toNat / 0x40 % 0x40 < 0x40 := Nat.mod_lt _ (by norm_num)
          omega
        · omega
      · simp at hb
        rcases hb with rfl | rfl | rfl | rfl
        · have : c.toNat / 0x40000 < 5 := by omega
          omega
        · have : c.toNat / 0x1000 % 0x40 < 0x40 := Nat.mod_lt _ (by norm_num)
          omega
        · have : c.toNat / 0x40 % 0x40 < 0x40 := Nat.mod_lt _ (by norm_num)
          omega
        · omega

theorem strBytes_lt (s : List Char) : ∀ b ∈ strBytes s, b < 256 := by
  induction s with
  | nil => simp [strBytes]
  | cons c rest ih =>
    intro b hb
    rcases List.mem_append.1 hb with h | h
    · exact utf8EncodeChar_lt c b h
    · exact ih b h

theorem strBytes_append (s t : List Char) :
    strBytes (s ++ t) = strBytes s ++ strBytes t := by
  induction s with
  | nil => rfl
  | cons c rest ih => simp [strBytes, List.foldr_append] at ih ⊢; simp [ih]

/-! ### Range and injectivity of the CRC register -/

theorem crcStep1_lt {x : Nat} (h : x < 2 ^ 32) : crcStep1 x < 2 ^ 32 := by
  have h1 : x >>> 1 < 2 ^ 32 := by rw [Nat.shiftRight_one]; omega
  unfold crcStep1
  split
  · exact Nat.xor_lt_two_pow h1 (by decide)
  · exact h1

theorem crcStep8_lt {x : Nat} (h : x < 2 ^ 32) : crcStep8 x < 2 ^ 32 :=
  crcStep1_lt (crcStep1_lt (crcStep1_lt (crcStep1_lt
    (crcStep1_lt (crcStep1_lt (crcStep1_lt (crcStep1_lt h)))))))

theorem crcUpdate_lt {c b : Nat} (hc : c < 2 ^ 32) (hb : b < 2 ^ 32) :
    crcUpdate c b < 2 ^ 32 :=
  crcStep8_lt (Nat.xor_lt_two_pow hc hb)

theorem crcFold_lt (l : List Nat) (hl : ∀ x ∈ l, x < 2 ^ 32) :
    ∀ c, c < 2 ^ 32 → l.foldl crcUpdate c < 2 ^ 32 := by
  induction l with
  | nil => intro c hc; simpa using hc
  | cons b rest ih =>
    intro c hc
    exact ih (fun x hx => hl x (by simp [hx])) _ (crcUpdate_lt hc (hl b (by simp)))

theorem crc32_lt (l : List Nat) (hl : ∀ x ∈ l, x < 2 ^ 32) : crc32 l < 2 ^ 32 :=
  Nat.xor_lt_two_pow (crcFold_lt l hl _ (by norm_num)) (by norm_num)

theorem crc32_lt256 (l : List Nat) (hl : ∀ x ∈ l, x < 256) : crc32 l < 2 ^ 32 :=
  crc32_lt l fun x hx => lt_trans (hl x hx) (by norm_num)

/-- The bit step is invertible on 32-bit values: its explicit inverse. -/
def crcUnstep1 (y : Nat) : Nat :=
  if y.testBit 31 then 2 * (y ^^^ crcPoly) + 1 else 2 * y

theorem crcUnstep1_crcStep1 {x : Nat} (h : x < 2 ^ 32) : crcUnstep1 (crcStep1 x) = x := by
  have hx2 : x >>> 1 < 2 ^ 31 := by rw [Nat.shiftRight_one]; omega
  have hbit : (x >>> 1).testBit 31 = false := Nat.testBit_lt_two_pow hx2
  unfold crcStep1 crcUnstep1
  by_cases hodd : x % 2 = 1
  · rw [if_pos hodd]
    have hbit' : ((x >>> 1) ^^^ crcPoly).testBit 31 = true := by
      rw [Nat.testBit_xor, hbit]
      decide
    rw [if_pos hbit', Nat.xor_cancel_right, Nat.shiftRight_one]
    omega
  · rw [if_neg hodd, if_neg (by rw [hbit]; exact Bool.false_ne_true), Nat.shiftRight_one]
    omega

theorem crcStep1_inj {x y : Nat} (hx : x < 2 ^ 32) (hy : y < 2 ^ 32)
    (h : crcStep1 x = crcStep1 y) : x = y := by
  rw [← crcUnstep1_crcStep1 hx, ← crcUnstep1_crcStep1 hy, h]

theorem crcStep8_inj {x y : Nat} (hx : x < 2 ^ 32) (hy : y < 2 ^ 32)
    (h : crcStep8 x = crcStep8 y) : x = y := by
  unfold crcStep8 at h
  apply crcStep1_inj hx hy
  apply crcStep1_inj (crcStep1_lt hx) (crcStep1_lt hy)
  apply crcStep1_inj (crcStep1_lt (crcStep1_lt hx)) (crcStep1_lt (crcStep1_lt hy))
  apply crcStep1_inj (crcStep1_lt (crcStep1_lt (crcStep1_lt hx)))
    (crcStep1_lt (crcStep1_lt (crcStep1_lt hy)))
  apply crcStep1_inj (crcStep1_lt (crcStep1_lt (crcStep1_lt (crcStep1_lt hx))))
    (crcStep1_lt (crcStep1_lt (crcStep1_lt (crcStep1_lt hy))))
  apply crcStep1_inj (crcStep1_lt (crcStep1_lt (crcStep1_lt (crcStep1_lt (crcStep1_lt hx)))))
    (crcStep1_lt (crcStep1_lt (crcStep1_lt (crcStep1_lt (crcStep1_lt hy)))))
  apply crcStep1_inj
    (crcStep1_lt (crcStep1_lt (crcStep1_lt (crcStep1_lt (crcStep1_lt (crcStep1_lt hx))))))
    (crcStep1_lt (crcStep1_lt (crcStep1_lt (crcStep1_lt (crcStep1_lt (crcStep1_lt hy))))))
  apply crcStep1_inj
    (crcStep1_lt (crcStep1_lt (crcStep1_lt (crcStep1_lt
      (crcStep1_lt (crcStep1_lt (crcStep1_lt hx)))))))
    (crcStep1_lt (crcStep1_lt (crcStep1_lt (crcStep1_lt
      (crcStep1_lt (crcStep1_lt (crcStep1_lt hy)))))))
  exact h

theorem crcUpdate_injL {c₁ c₂ b : Nat} (h₁ : c₁ < 2 ^ 32) (h₂ : c₂ < 2 ^ 32)
    (hb : b < 2 ^ 32) (h : crcUpdate c₁ b = crcUpdate c₂ b) : c₁ = c₂ := by
  have h2 := crcStep8_inj (Nat.xor_lt_two_pow h₁ hb) (Nat.xor_lt_two_pow h₂ hb) h
  have h3 := congrArg (· ^^^ b) h2
  simpa [Nat.xor_cancel_right] using h3

theorem crcFold_inj (l : List Nat) (hl : ∀ x ∈ l, x < 2 ^ 32) :
    ∀ {c₁ c₂ : Nat}, c₁ < 2 ^ 32 → c₂ < 2 ^ 32 →
      l.foldl crcUpdate c₁ = l.foldl crcUpdate c₂ → c₁ = c₂ := by
  induction l with
  | nil => intro c₁ c₂ _ _ h; simpa using h
  | cons b rest ih =>
    intro c₁ c₂ h₁ h₂ h
    have hb : b < 2 ^ 32 := by have := hl b (by simp); omega
    exact crcUpdate_injL h₁ h₂ hb
      (ih (fun x hx => hl x (by simp [hx]))
        (crcUpdate_lt h₁ hb) (crcUpdate_lt h₂ hb) h)

/-- Changing any single byte of a byte string changes its CRC-32. -/
theorem crc32_middle_ne (pre : List Nat) {b b' : Nat} (post : List Nat)
    (hpre : ∀ x ∈ pre, x < 2 ^ 32) (hb : b < 2 ^ 32) (hb' : b' < 2 ^ 32)
    (hpost : ∀ x ∈ post, x < 2 ^ 32) (hne : b ≠ b') :
    crc32 (pre ++ b :: post) ≠ crc32 (pre ++ b' :: post) := by
  intro h
  unfold crc32 at h
  have h2 : (pre ++ b :: post).foldl crcUpdate 0xFFFFFFFF
      = (pre ++ b' :: post).foldl crcUpdate 0xFFFFFFFF := by
    have := congrArg (· ^^^ 0xFFFFFFFF) h
    simpa [Nat.xor_cancel_right] using this
  rw [List.foldl_append, List.foldl_append] at h2
  simp only [List.foldl_cons] at h2
  have hclt : pre.foldl crcUpdate 0xFFFFFFFF < 2 ^ 32 :=
    crcFold_lt pre hpre _ (by norm_num)
  have h3 : crcUpdate (pre.foldl crcUpdate 0xFFFFFFFF) b
      = crcUpdate (pre.foldl crcUpdate 0xFFFFFFFF) b' :=
    crcFold_inj post hpost (crcUpdate_lt hclt hb) (crcUpdate_lt hclt hb') h2
  have h4 := crcStep8_inj (Nat.xor_lt_two_pow hclt hb) (Nat.xor_lt_two_pow hclt hb') h3
  have h5 := congrArg ((pre.foldl crcUpdate 0xFFFFFFFF) ^^^ ·) h4
  simp only [Nat.xor_cancel_left] at h5
  exact hne h5

/-! ### Hexadecimal header formatting and parsing -/

/-- Lowercase hex digit of a value below 16. -/
def hexDigit (n : Nat) : Char :=
  if n < 10 then Char.ofNat (n + 48) else Char.ofNat (n + 87)

/-- Python `f"{n:08x}"` for `n < 2^32`: eight lowercase zero-padded hex
digits, most significant first. -/
def toHex8 (n : Nat) : List Char :=
  [hexDigit (n / 16 ^ 7 % 16), hexDigit (n / 16 ^ 6 % 16), hexDigit (n / 16 ^ 5 % 16),
   hexDigit (n / 16 ^ 4 % 16), hexDigit (n / 16 ^ 3 % 16), hexDigit (n / 16 ^ 2 % 16),
   hexDigit (n / 16 % 16), hexDigit (n % 16)]

/-- Value of one hex digit character as `int(s, 16)` reads it. -/
def hexDigitVal (c : Char) : Option Nat :=
  if '0' ≤ c ∧ c ≤ '9' then some (c.toNat - 48)
  else if 'a' ≤ c ∧ c ≤ 'f' then some (c.toNat - 87)
  else if 'A' ≤ c ∧ c ≤ 'F' then some (c.toNat - 55)
  else none

def parseHexAux : List Char → Nat → Option Nat
  | [], acc => some acc
  | c :: rest, acc =>
    match hexDigitVal c with
    | some v => parseHexAux rest (acc * 16 + v)
    | none => none

/-- `int(s, 16)` on the digit-run shapes the protocol produces (`none`
models the `ValueError` Python raises on an empty or non-hex string). -/
def parseHex (s : List Char) : Option Nat :=
  if s = [] then none else parseHexAux s 0

theorem hexDigitVal_hexDigit {m : Nat} (h : m < 16) :
    hexDigitVal (hexDigit m) = some m := by
  interval_cases m <;> decide

theorem hexDigit_not_space {m : Nat} (h : m < 16) : pyIsSpace (hexDigit m) = false := by
  interval_cases m <;> decide

theorem toHex8_length (n : Nat) : (toHex8 n).length = 8 := rfl

/-- `int(f"{n:08x}", 16) = n` for 32-bit `n`. -/
theorem parseHex_toHex8 {n : Nat} (h : n < 2 ^ 32) : parseHex (toHex8 n) = some n := by
  have h16 : ∀ k : Nat, k % 16 < 16 := fun k => Nat.mod_lt _ (by norm_num)
  rw [parseHex, if_neg (by simp [toHex8])]
  show parseHexAux _ 0 = some n
  rw [toHex8]
  simp only [parseHexAux, hexDigitVal_hexDigit (h16 _)]
  norm_num [pow_succ]
  omega

/-! ### The frame codec and the client's receive loop (client.py)

`packetFrame` is the framing every `packet_send` in the program applies
(`GameServer.packet_send`, and the two `packet_send` closures in
battleship.py): strip the message, then write
`f"{zlib.crc32(msg.encode()):08x};{msg}\n"`.  `clientHandleLine` is what one
iteration of `BattleshipClient.receive_messages` does with one received
line (the line as `readline` returns it, before the client's `strip`). -/

def msgOf (tag : Char) (body : List Char) : List Char := tag :: ';' :: body

def packetFrame (msg : List Char) : List Char :=
  toHex8 (crc32 (strBytes (pyStrip msg))) ++ ';' :: pyStrip msg

def ackLine : List Char := ['A', 'C', 'K']

def nackLine : List Char := ['N', 'A', 'C', 'K']

/-- The notice printed by the client's `X` branch. -/
def idleNotice : List Char :=
  "You have been detected idle, and have been disconnected from the server, press ENTER to end session".toList

structure ClientState where
  running : Bool
  playing : Bool
  can_input : Bool
  stop_spam : Bool
deriving DecidableEq

/-- Everything one loop iteration of `receive_messages` does with one line:
the state after it, the reply lines written to the socket, the lines
printed, whether the `GRID` branch handed off to `print_board`, and whether
an exception escaped the handlers (`int()` on a malformed header). -/
structure ClientStep where
  state : ClientState
  replies : List (List Char)
  printed : List (List Char)
  readsGrid : Bool
  err : Bool
deriving DecidableEq

/-- The flag effects and extra prints of the tag dispatch (`line[9]`) inside
the checksum-verified branch.  Tag `'4'` really does print `"yep"` before
raising the spam throttle; the 2-second `allow_chat` timer that later clears
`stop_spam` is real time and is not modelled. -/
def clientTagEffect (st : ClientState) (t : Char) : ClientState × List (List Char) :=
  if t = '1' then ({ st with can_input := true }, [])
  else if t = '2' then ({ st with can_input := false }, [])
  else if t = '4' then ({ st with stop_spam := true }, [['y', 'e', 'p']])
  else if t = '5' then ({ st with can_input := false, playing := true }, [])
  else if t = '6' then ({ st with can_input := false, playing := false }, [])
  else (st, [])

def clientHandleLine (st : ClientState) (line0 : List Char) : ClientStep :=
  let line := pyStrip line0
  if line = ['X'] then
    { state := { st with can_input := false, running := false }
      replies := [], printed := [idleNotice], readsGrid := false, err := false }
  else if line = ['G', 'R', 'I', 'D'] then
    { state := st, replies := [], printed := [], readsGrid := true, err := false }
  else if line = ackLine then
    { state := st, replies := [ackLine], printed := [], readsGrid := false, err := false }
  else
    match parseHex (line.take 8) with
    | none =>
      { state := st, replies := [], printed := [], readsGrid := false, err := true }
    | some checksum_rcv =>
      if checksum_rcv = crc32 (strBytes (line.drop 9)) then
        match line.drop 9 with
        | [] =>
          -- `line[9]` raises IndexError, swallowed by the bare `except`
          { state := st, replies := [ackLine], printed := [], readsGrid := false
            err := false }
        | t :: _ =>
          let e := clientTagEffect st t
          { state := e.1
            replies := [ackLine]
            printed := e.2 ++ [line.drop 11] ++ (if t = '3' then [[]] else [])
            readsGrid := false, err := false }
      else
        { state := st, replies := [nackLine], printed := [], readsGrid := false
          err := false }

theorem dropWhile_eq_self_of_head {p : Char → Bool} :
    ∀ {l : List Char}, (∀ c, l.head? = some c → p c = false) → l.dropWhile p = l
  | [], _ => rfl
  | a :: t, h => by simp [List.dropWhile_cons, h a rfl]

theorem pyStrip_eq_self {l : List Char}
    (hhead : ∀ c, l.head? = some c → pyIsSpace c = false)
    (hlast : ∀ c, l.getLast? = some c → pyIsSpace c = false) : pyStrip l = l := by
  unfold pyStrip
  rw [dropWhile_eq_self_of_head hhead,
    dropWhile_eq_self_of_head fun c hc => hlast c (by rwa [List.head?_reverse] at hc),
    List.reverse_reverse]

/-- Stripping the `readline` result of a frame whose edges are not
whitespace removes exactly the trailing newline. -/
theorem pyStrip_append_newline {l : List Char} (hne : l ≠ [])
    (hhead : ∀ c, l.head? = some c → pyIsSpace c = false)
    (hlast : ∀ c, l.getLast? = some c → pyIsSpace c = false) :
    pyStrip (l ++ ['\n']) = l := by
  unfold pyStrip
  have h1 : (l ++ ['\n']).dropWhile pyIsSpace = l ++ ['\n'] := by
    apply dropWhile_eq_self_of_head
    intro c hc
    cases l with
    | nil => exact absurd rfl hne
    | cons a t => exact hhead c (by simpa using hc)
  rw [h1, show (l ++ ['\n']).reverse = '\n' :: l.reverse by simp,
    List.dropWhile_cons, if_pos (by decide),
    dropWhile_eq_self_of_head fun c hc => hlast c (by rwa [List.head?_reverse] at hc),
    List.reverse_reverse]

theorem isDigit_not_space {c : Char} (h : c.isDigit = true) : pyIsSpace c = false := by
  by_contra hs
  have hs' : pyIsSpace c = true := by simpa using hs
  unfold pyIsSpace at hs'
  simp only [Bool.or_eq_true, decide_eq_true_eq] at hs'
  rcases hs' with ((((rfl | rfl) | rfl) | rfl) | rfl) | rfl <;> simp [Char.isDigit] at h

theorem msgOf_getLast? (tag : Char) (body : List Char) :
    (msgOf tag body).getLast? = if body = [] then some ';' else body.getLast? := by
  cases body with
  | nil => rfl
  | cons b bs =>
    rw [if_neg (by simp)]
    show (tag :: ';' :: b :: bs).getLast? = (b :: bs).getLast?
    rw [List.getLast?_cons_cons, List.getLast?_cons_cons]

/-- The strip inside `packet_send` leaves `"tag;body"` alone when the tag is
a digit and the body does not end in whitespace. -/
theorem pyStrip_msgOf {tag : Char} {body : List Char} (htag : tag.isDigit = true)
    (hlast : ∀ c, body.getLast? = some c → pyIsSpace c = false) :
    pyStrip (msgOf tag body) = msgOf tag body := by
  apply pyStrip_eq_self
  · intro c hc
    rw [show (msgOf tag body).head? = some tag from rfl] at hc
    cases hc
    exact isDigit_not_space htag
  · intro c hc
    rw [msgOf_getLast?] at hc
    split at hc
    · cases hc; decide
    · exact hlast c hc

/-- How `receive_messages` treats one well-formed payload frame
`HHHHHHHH;PAYLOAD` (with a non-empty payload not ending in whitespace, so
the client's `strip` removes exactly the newline): it verifies the
checksum; on a match it ACKs, applies the tag dispatch to `payload[0]` and
prints `payload[2:]`; on a mismatch it NACKs and does nothing else. -/
theorem clientHandleLine_frame (st : ClientState) (h : Nat) (t : Char) (rest : List Char)
    (hh : h < 2 ^ 32)
    (hplast : ∀ c, (t :: rest).getLast? = some c → pyIsSpace c = false) :
    clientHandleLine st ((toHex8 h ++ ';' :: t :: rest) ++ ['\n']) =
      (if h = crc32 (strBytes (t :: rest)) then
        { state := (clientTagEffect st t).1
          replies := [ackLine]
          printed := (clientTagEffect st t).2 ++ [rest.drop 1]
            ++ (if t = '3' then [[]] else [])
          readsGrid := false, err := false }
      else
        { state := st, replies := [nackLine], printed := [], readsGrid := false
          err := false }) := by
  have hhead : ∀ c, (toHex8 h ++ ';' :: t :: rest).head? = some c → pyIsSpace c = false := by
    intro c hc
    rw [show (toHex8 h ++ ';' :: t :: rest).head? = some (hexDigit (h / 16 ^ 7 % 16)) from by
      rw [toHex8]; rfl] at hc
    cases hc
    exact hexDigit_not_space (Nat.mod_lt _ (by norm_num))
  have hlast : ∀ c, (toHex8 h ++ ';' :: t :: rest).getLast? = some c → pyIsSpace c = false := by
    intro c hc
    rw [List.getLast?_append_of_ne_nil _ (by simp), List.getLast?_cons_cons] at hc
    exact hplast c hc
  have hline := pyStrip_append_newline (l := toHex8 h ++ ';' :: t :: rest)
    (by simp) hhead hlast
  have htake : (toHex8 h ++ ';' :: t :: rest).take 8 = toHex8 h :=
    List.take_left' (toHex8_length h)
  have hdrop9 : (toHex8 h ++ ';' :: t :: rest).drop 9 = t :: rest := by
    rw [List.append_cons]
    exact List.drop_left' (by rw [List.length_append, toHex8_length]; rfl)
  have hdrop11 : (toHex8 h ++ ';' :: t :: rest).drop 11 = rest.drop 1 := by
    rw [List.append_cons, show (11 : Nat) = (toHex8 h ++ [';']).length + 2 from by
      rw [List.length_append, toHex8_length]; rfl, List.drop_append]
    rfl
  have hX : ¬(toHex8 h ++ ';' :: t :: rest = ['X']) := by
    intro he
    have := congrArg List.length he
    rw [List.length_append, toHex8_length] at this
    simp at this
    omega
  have hG : ¬(toHex8 h ++ ';' :: t :: rest = ['G', 'R', 'I', 'D']) := by
    intro he
    have := congrArg List.length he
    rw [List.length_append, toHex8_length] at this
    simp at this
    omega
  have hA : ¬(toHex8 h ++ ';' :: t :: rest = ackLine) := by
    intro he
    have := congrArg List.length he
    rw [List.length_append, toHex8_length] at this
    simp [ackLine] at this
    omega
  simp only [clientHandleLine, hline, if_neg hX, if_neg hG, if_neg hA, htake,
    parseHex_toHex8 hh, hdrop9, hdrop11]

/-- C6 (amended): for a digit tag and a body with no newline and no trailing
whitespace, the encoded frame decodes on the client to an ACK, the tag's
dispatch, and a print of exactly the original body. -/
theorem packet_roundtrip (st : ClientState) (tag : Char) (body : List Char)
    (htag : tag.isDigit = true)
    (_hnl : ∀ c ∈ body, c ≠ '\n')
    (hlast : ∀ c, body.getLast? = some c → pyIsSpace c = false) :
    clientHandleLine st (packetFrame (msgOf tag body) ++ ['\n']) =
      { state := (clientTagEffect st tag).1
        replies := [ackLine]
        printed := (clientTagEffect st tag).2 ++ [body]
          ++ (if tag = '3' then [[]] else [])
        readsGrid := false
        err := false } := by
  have hmsg := pyStrip_msgOf htag hlast
  have hframe : packetFrame (msgOf tag body) =
      toHex8 (crc32 (strBytes (tag :: ';' :: body))) ++ ';' :: tag :: ';' :: body := by
    rw [packetFrame, hmsg]; rfl
  have hplast : ∀ c, (tag :: ';' :: body).getLast? = some c → pyIsSpace c = false := by
    intro c hc
    rw [show (tag :: ';' :: body) = msgOf tag body from rfl, msgOf_getLast?] at hc
    split at hc
    · cases hc; decide
    · exact hlast c hc
  rw [hframe, clientHandleLine_frame st _ tag (';' :: body)
    (crc32_lt256 _ (strBytes_lt _)) hplast, if_pos rfl]
  rfl

/-- C6, counterexample to the unamended claim: the body `"a "` (trailing
space) is encoded, decoded and ACKed, but what comes back — and is printed —
is `"a"`, not the original body: the transport strips frame edges. -/
theorem packet_roundtrip_counterexample :
    (clientHandleLine ⟨true, true, false, false⟩
        (packetFrame (msgOf '0' ['a', ' ']) ++ ['\n'])).printed = [['a']] ∧
      (clientHandleLine ⟨true, true, false, false⟩
        (packetFrame (msgOf '0' ['a', ' ']) ++ ['\n'])).replies = [ackLine] ∧
      ¬(['a'] = ['a', ' ']) := by
  refine ⟨?_, ?_, by decide⟩ <;> decide

/-- Witness for C6 at a concrete frame: tag `'2'`, body `"hi"`. -/
theorem packet_roundtrip_witness :
    clientHandleLine ⟨true, true, false, false⟩
        (packetFrame (msgOf '2' ['h', 'i']) ++ ['\n']) =
      { state := (clientTagEffect ⟨true, true, false, false⟩ '2').1
        replies := [ackLine]
        printed := (clientTagEffect ⟨true, true, false, false⟩ '2').2 ++ [['h', 'i']]
          ++ (if ('2' : Char) = '3' then [[]] else [])
        readsGrid := false
        err := false } :=
  packet_roundtrip ⟨true, true, false, false⟩ '2' ['h', 'i'] (by decide)
    (by decide) (by intro c hc; simp at hc; subst hc; decide)

/-- C7: (i) flipping any single bit of any body byte of a payload frame
changes the CRC-32 of the payload `tag;body`, so the stored checksum no
longer matches; and (ii) on any frame whose stored 8-hex-digit checksum
differs from the CRC-32 of its payload, the client replies `NACK`, prints
nothing and changes no flag. -/
theorem bitflip_nack :
    (∀ (tag : Char) (preB postB : List Nat) (b i : Nat), i < 8 → b < 256 →
      (∀ x ∈ preB, x < 256) → (∀ x ∈ postB, x < 256) →
      crc32 (strBytes [tag, ';'] ++ (preB ++ (b ^^^ 2 ^ i) :: postB))
        ≠ crc32 (strBytes [tag, ';'] ++ (preB ++ b :: postB))) ∧
    (∀ (st : ClientState) (h : Nat) (t : Char) (rest : List Char), h < 2 ^ 32 →
      (∀ c, (t :: rest).getLast? = some c → pyIsSpace c = false) →
      h ≠ crc32 (strBytes (t :: rest)) →
      clientHandleLine st ((toHex8 h ++ ';' :: t :: rest) ++ ['\n']) =
        { state := st, replies := [nackLine], printed := [], readsGrid := false
          err := false }) := by
  constructor
  · intro tag preB postB b i hi hb hpre hpost
    rw [← List.append_assoc, ← List.append_assoc]
    refine crc32_middle_ne (strBytes [tag, ';'] ++ preB) postB ?_ ?_ ?_ ?_ ?_
    · intro x hx
      rcases List.mem_append.1 hx with hx' | hx'
      · exact lt_trans (strBytes_lt _ x hx') (by norm_num)
      · exact lt_trans (hpre x hx') (by norm_num)
    · refine Nat.xor_lt_two_pow (by omega) ?_
      calc 2 ^ i ≤ 2 ^ 7 := Nat.pow_le_pow_right (by norm_num) (by omega)
        _ < 2 ^ 32 := by norm_num
    · omega
    · intro x hx
      exact lt_trans (hpost x hx) (by norm_num)
    · intro he
      have h0 := congrArg (b ^^^ ·) he
      simp only [Nat.xor_cancel_left, Nat.xor_self] at h0
      exact (Nat.pow_pos (n := i) (by norm_num)).ne' h0
  · intro st h t rest hh hplast hne
    rw [clientHandleLine_frame st h t rest hh hplast, if_neg hne]

/-- Witness for C7: flipping bit 0 of the byte `0x61` (`'a'`) in the body of
a `0;a` frame changes the CRC, and the client NACKs a frame whose header
checksum `00000000` does not match its payload. -/
theorem bitflip_nack_witness :
    (crc32 (strBytes ['0', ';'] ++ ([] ++ ((0x61 : Nat) ^^^ 2 ^ 0) :: []))
        ≠ crc32 (strBytes ['0', ';'] ++ ([] ++ (0x61 : Nat) :: []))) ∧
      clientHandleLine ⟨true, true, false, false⟩
          ((toHex8 0 ++ ';' :: '0' :: [';', 'a']) ++ ['\n']) =
        { state := ⟨true, true, false, false⟩, replies := [nackLine], printed := []
          readsGrid := false, err := false } :=
  ⟨bitflip_nack.1 '0' [] [] 0x61 0 (by decide) (by decide) (by decide) (by decide),
   bitflip_nack.2 ⟨true, true, false, false⟩ 0 '0' [';', 'a'] (by decide)
     (by intro c hc; simp at hc; subst hc; decide) (by decide)⟩

/-! ## Reliable send with retry (C8)

`GameServer.packet_send` (and the identical closures in battleship.py)
transmits the frame, waits up to 30 s (`select`) for a reply line, succeeds
on `ACK`, and otherwise decrements a retry counter that starts at 3; when it
reaches 0 the code raises `BrokenPipeError`.  The environment is modelled as
`replies k`: `none` when the k-th transmission's 30-second window expires
with no reply, `some r` when the (stripped) reply line `r` arrives. -/

def sendLoop (replies : Nat → Option (List Char)) : Nat → Nat → Bool × Nat
  | 0, sent => (false, sent)
  | retry + 1, sent =>
    match replies sent with
    | some r => if r = ackLine then (true, sent + 1) else sendLoop replies retry (sent + 1)
    | none => sendLoop replies retry (sent + 1)

/-- `packet_send` as a function of the reply environment: whether it
returned normally, and how many transmissions it made.  `(false, n)` is the
`BrokenPipeError` exit. -/
def packet_send (replies : Nat → Option (List Char)) : Bool × Nat :=
  sendLoop replies 3 0

/-- C8: `packet_send` succeeds only on an `ACK` reply, makes at most 3
transmissions, raises after exactly 3 unacknowledged transmissions (never a
fourth), and an immediate `ACK` means success after one transmission. -/
theorem packet_send_retry_bound (replies : Nat → Option (List Char)) :
    ((packet_send replies).1 = true →
        (packet_send replies).2 ≤ 3 ∧
        replies ((packet_send replies).2 - 1) = some ackLine) ∧
    ((packet_send replies).1 = false →
        (packet_send replies).2 = 3 ∧ ∀ k < 3, replies k ≠ some ackLine) ∧
    (replies 0 = some ackLine → packet_send replies = (true, 1)) := by
  unfold packet_send
  rcases h0 : replies 0 with _ | r0
  ·
    rcases h1 : replies 1 with _ | r1
    ·
      rcases h2 : replies 2 with _ | r2
      ·
        refine ⟨?_, ?_, ?_⟩ <;> simp [sendLoop, h0, h1, h2]
        intro k hk
        interval_cases k <;> simp [h0, h1, h2]
      ·
        by_cases hr2 : r2 = ackLine
        · subst hr2
          refine ⟨?_, ?_, ?_⟩ <;> simp [sendLoop, h0, h1, h2]
        · refine ⟨?_, ?_, ?_⟩ <;> simp [sendLoop, h0, h1, h2, hr2]
          intro k hk
          interval_cases k <;> simp [h0, h1, h2, hr2]
    ·
      by_cases hr1 : r1 = ackLine
      · subst hr1
        refine ⟨?_, ?_, ?_⟩ <;> simp [sendLoop, h0, h1]
      · rcases h2 : replies 2 with _ | r2
        ·
          refine ⟨?_, ?_, ?_⟩ <;> simp [sendLoop, h0, h1, h2, hr1]
          intro k hk
          interval_cases k <;> simp [h0, h1, h2, hr1]
        ·
          by_cases hr2 : r2 = ackLine
          · subst hr2
            refine ⟨?_, ?_, ?_⟩ <;> simp [sendLoop, h0, h1, h2, hr1]
          · refine ⟨?_, ?_, ?_⟩ <;> simp [sendLoop, h0, h1, h2, hr1, hr2]
            intro k hk
            interval_cases k <;> simp [h0, h1, h2, hr1, hr2]
  ·
    by_cases hr0 : r0 = ackLine
    · subst hr0
      refine ⟨?_, ?_, ?_⟩ <;> simp [sendLoop, h0]
    · rcases h1 : replies 1 with _ | r1
      ·
        rcases h2 : replies 2 with _ | r2
        ·
          refine ⟨?_, ?_, ?_⟩ <;> simp [sendLoop, h0, h1, h2, hr0]
          intro k hk
          interval_cases k <;> simp [h0, h1, h2, hr0]
        ·
          by_cases hr2 : r2 = ackLine
          · subst hr2
            refine ⟨?_, ?_, ?_⟩ <;> simp [sendLoop, h0, h1, h2, hr0]
          · refine ⟨?_, ?_, ?_⟩ <;> simp [sendLoop, h0, h1, h2, hr0, hr2]
            intro k hk
            interval_cases k <;> simp [h0, h1, h2, hr0, hr2]
      ·
        by_cases hr1 : r1 = ackLine
        · subst hr1
          refine ⟨?_, ?_, ?_⟩ <;> simp [sendLoop, h0, h1, hr0]
        · rcases h2 : replies 2 with _ | r2
          ·
            refine ⟨?_, ?_, ?_⟩ <;> simp [sendLoop, h0, h1, h2, hr0, hr1]
            intro k hk
            interval_cases k <;> simp [h0, h1, h2, hr0, hr1]
          ·
            by_cases hr2 : r2 = ackLine
            · subst hr2
              refine ⟨?_, ?_, ?_⟩ <;> simp [sendLoop, h0, h1, h2, hr0, hr1]
            · refine ⟨?_, ?_, ?_⟩ <;> simp [sendLoop, h0, h1, h2, hr0, hr1, hr2]
              intro k hk
              interval_cases k <;> simp [h0, h1, h2, hr0, hr1, hr2]

/-- Witness for C8: an environment that always ACKs succeeds in one
transmission, and a silent environment exhausts exactly 3. -/
theorem packet_send_retry_bound_witness :
    ((packet_send fun _ => some ackLine).2 ≤ 3 ∧
      (fun _ => some ackLine : Nat → Option (List Char))
        ((packet_send fun _ => some ackLine).2 - 1) = some ackLine) ∧
    ((packet_send fun _ => none).2 = 3 ∧
      ∀ k < 3, (fun _ => none : Nat → Option (List Char)) k ≠ some ackLine) ∧
    packet_send (fun _ => some ackLine) = (true, 1) :=
  ⟨(packet_send_retry_bound fun _ => some ackLine).1 (by decide),
   (packet_send_retry_bound fun _ => none).2.1 (by decide),
   (packet_send_retry_bound fun _ => some ackLine).2.2 rfl⟩

/-! ## Coordinate parsing and shot acceptance (C9)

`parse_coordinate` calls Python's `int()` on everything after the row
letter.  `pyInt` models `int(str)` over the ASCII inputs the game can
receive: surrounding whitespace, an optional single sign, then a run of
digits in which single underscores may stand strictly between digits
(`int("1_0") == 10`); anything else raises `ValueError`. -/

inductive PyErr
  | valueError
  | indexError
deriving DecidableEq

def digitsValAux : Nat → List Char → Option Nat
  | acc, [] => some acc
  | acc, '_' :: d :: rest =>
    if d.isDigit then digitsValAux (acc * 10 + (d.toNat - 48)) rest else none
  | _, ['_'] => none
  | acc, d :: rest =>
    if d.isDigit then digitsValAux (acc * 10 + (d.toNat - 48)) rest else none

def digitsVal : List Char → Option Nat
  | [] => none
  | d :: rest => if d.isDigit then digitsValAux (d.toNat - 48) rest else none

def pyInt (s : List Char) : Option Int :=
  match pyStrip s with
  | '+' :: rest => (digitsVal rest).map fun n => (n : Int)
  | '-' :: rest => (digitsVal rest).map fun n => -(n : Int)
  | rest => (digitsVal rest).map fun n => (n : Int)

/-- `parse_coordinate`: `coord_str.strip().upper()`, then
`row = ord(coord_str[0]) - ord('A')` and `col = int(coord_str[1:]) - 1`.
Indexing the empty string raises `IndexError`; `int` raises `ValueError`. -/
def parse_coordinate (coord_str : List Char) : Except PyErr (Int × Int) :=
  match pyUpper (pyStrip coord_str) with
  | [] => .error .indexError
  | row_letter :: col_digits =>
    match pyInt col_digits with
    | none => .error .valueError
    | some n => .ok ((row_letter.toNat : Int) - 65, n - 1)

/-- `validate_coordinate` from `run_multi_player_game_online`: in-range
pairs pass, `ValueError` is caught and becomes `None`, and any other
exception (the `IndexError` on whitespace-only input) propagates. -/
def validate_coordinate (board_size : Nat) (coord_str : List Char) :
    Except PyErr (Option (Int × Int)) :=
  match parse_coordinate coord_str with
  | .ok (row, col) =>
    if 0 ≤ row ∧ row < (board_size : Int) ∧ 0 ≤ col ∧ col < (board_size : Int) then
      .ok (some (row, col))
    else .ok none
  | .error .valueError => .ok none
  | .error e => .error e

def invalidCoordMsg : List Char :=
  "1;Invalid coordinate. Must be A-J followed by 1-10 (e.g. B5). Try again:".toList

def alreadyFiredMsg : List Char :=
  "1;You already fired at this location. Try another target.".toList

inductive TurnAct
  | emptyInput
  | playerDc
  | chatEcho (msg : List Char)
  | reply (msg : List Char)
  | shot (row col : Nat) (result : String) (sunk : Option String)
  | raised (e : PyErr)
deriving DecidableEq

/-- The command-classification slice of one poll iteration of the turn loop
for the active player's line: empty line, `quit`, `chat `, then coordinate
validation, the `already_shot` re-prompt, and acceptance of the shot.  (The
board mutation an accepted or already-shot coordinate performs is
`Board.fire_at` itself.) -/
def turnCommandStep (board : Board) (command : List Char) : TurnAct :=
  if command = [] then .emptyInput
  else if pyLower command = ['q', 'u', 'i', 't'] then .playerDc
  else if (pyLower command).take 5 = ['c', 'h', 'a', 't', ' '] then
    .chatEcho (command.drop 5)
  else
    match validate_coordinate board.size command with
    | .error e => .raised e
    | .ok none => .reply invalidCoordMsg
    | .ok (some (row, col)) =>
      let f := board.fire_at row.toNat col.toNat
      if f.1.1 = "already_shot" then .reply alreadyFiredMsg
      else .shot row.toNat col.toNat f.1.1 f.1.2

theorem mem_dropWhile_of_not {p : Char → Bool} {l : List Char} {c : Char}
    (hc : c ∈ l) (hp : p c = false) : c ∈ l.dropWhile p := by
  have hsplit := List.takeWhile_append_dropWhile (p := p) (l := l)
  rw [← hsplit] at hc
  rcases List.mem_append.1 hc with h | h
  · exact absurd (List.mem_takeWhile_imp h) (by simp [hp])
  · exact h

theorem pyStrip_ne_nil {l : List Char} (h : ∃ c ∈ l, pyIsSpace c = false) :
    pyStrip l ≠ [] := by
  intro he
  obtain ⟨c, hc, hcs⟩ := h
  unfold pyStrip at he
  rw [List.reverse_eq_nil_iff, List.dropWhile_eq_nil_iff] at he
  exact absurd (he c (by
    rw [List.mem_reverse]
    exact mem_dropWhile_of_not hc hcs)) (by simp [hcs])

theorem pyStrip_all_space {l : List Char} (h : ∀ c ∈ l, pyIsSpace c = true) :
    pyStrip l = [] := by
  unfold pyStrip
  rw [List.dropWhile_eq_nil_iff.2 h]
  rfl

/-- C9 (amended): `validate_coordinate` never raises on input containing a
non-whitespace character, raises `IndexError` on (non-empty) whitespace-only
input, accepts exactly the inputs whose stripped-uppercased form is a row
letter `A`-`J` followed by a string `int()` parses to a value 1-10 (which,
beyond plain digit runs, admits a sign, inner whitespace and underscores
between digits), with the in-range zero-based pair returned; and every
non-empty, non-quit, non-chat line that `validate_coordinate` rejects as
`None` is answered with the `1;Invalid coordinate...` re-prompt. -/
theorem validate_coordinate_spec :
    (∀ cmd : List Char, (∃ c ∈ cmd, pyIsSpace c = false) →
        ∃ r, validate_coordinate 10 cmd = .ok r) ∧
    (∀ cmd : List Char, cmd ≠ [] → (∀ c ∈ cmd, pyIsSpace c = true) →
        validate_coordinate 10 cmd = .error .indexError) ∧
    (∀ (cmd : List Char) (row col : Int),
        validate_coordinate 10 cmd = .ok (some (row, col)) ↔
          ∃ (L : Char) (ds : List Char) (n : Int),
            pyUpper (pyStrip cmd) = L :: ds ∧ 65 ≤ L.toNat ∧ L.toNat ≤ 74 ∧
            pyInt ds = some n ∧ 1 ≤ n ∧ n ≤ 10 ∧
            row = (L.toNat : Int) - 65 ∧ col = n - 1) ∧
    (∀ (board : Board) (cmd : List Char), board.size = 10 → cmd ≠ [] →
        pyLower cmd ≠ ['q', 'u', 'i', 't'] →
        (pyLower cmd).take 5 ≠ ['c', 'h', 'a', 't', ' '] →
        validate_coordinate 10 cmd = .ok none →
        turnCommandStep board cmd = .reply invalidCoordMsg) := by
  refine ⟨?_, ?_, ?_, ?_⟩
  · intro cmd h
    have hne : pyStrip cmd ≠ [] := pyStrip_ne_nil h
    rcases hu : pyUpper (pyStrip cmd) with _ | ⟨L, ds⟩
    · exact absurd (by simpa [pyUpper] using hu) hne
    · rcases hpi : pyInt ds with _ | n
      · exact ⟨none, by simp [validate_coordinate, parse_coordinate, hu, hpi]⟩
      · by_cases hin : 0 ≤ (L.toNat : Int) - 65 ∧ (L.toNat : Int) - 65 < ((10 : Nat) : Int)
            ∧ 0 ≤ n - 1 ∧ n - 1 < ((10 : Nat) : Int)
        · exact ⟨some ((L.toNat : Int) - 65, n - 1),
            by simp only [validate_coordinate, parse_coordinate, hu, hpi]; rw [if_pos hin]⟩
        · exact ⟨none,
            by simp only [validate_coordinate, parse_coordinate, hu, hpi]; rw [if_neg hin]⟩
  · intro cmd _ hall
    have hnil : pyStrip cmd = [] := pyStrip_all_space hall
    simp [validate_coordinate, parse_coordinate, hnil, pyUpper]
  · intro cmd row col
    rcases hu : pyUpper (pyStrip cmd) with _ | ⟨L, ds⟩
    · simp only [validate_coordinate, parse_coordinate, hu]
      constructor
      · intro h; cases h
      · rintro ⟨L, ds, n, hLd, _⟩
        exact absurd hLd.symm (List.cons_ne_nil _ _)
    · rcases hpi : pyInt ds with _ | n
      · simp only [validate_coordinate, parse_coordinate, hu, hpi]
        constructor
        · intro h; cases h
        · rintro ⟨L', ds', n, hLd, _, _, hpi', _⟩
          injection hLd with h1 h2
          subst h1; subst h2
          rw [hpi] at hpi'
          cases hpi'
      · simp only [validate_coordinate, parse_coordinate, hu, hpi]
        by_cases hin : 0 ≤ (L.toNat : Int) - 65 ∧ (L.toNat : Int) - 65 < ((10 : Nat) : Int)
            ∧ 0 ≤ n - 1 ∧ n - 1 < ((10 : Nat) : Int)
        · rw [if_pos hin]
          constructor
          · intro h
            injection h with h'
            injection h' with h''
            rw [Prod.mk.injEq] at h''
            exact ⟨L, ds, n, rfl, by omega, by omega, hpi, by omega, by omega,
              h''.1.symm, h''.2.symm⟩
          · rintro ⟨L', ds', n', hLd, hL1, hL2, hpi', hn1, hn2, hrow, hcol⟩
            injection hLd with h1 h2
            subst h1; subst h2
            rw [hpi] at hpi'
            injection hpi' with h3
            subst h3
            rw [hrow, hcol]
        · rw [if_neg hin]
          constructor
          · intro h; cases h
          · rintro ⟨L', ds', n', hLd, hL1, hL2, hpi', hn1, hn2, hrow, hcol⟩
            injection hLd with h1 h2
            subst h1; subst h2
            rw [hpi] at hpi'
            injection hpi' with h3
            subst h3
            exact absurd (by omega) hin
  · intro board cmd hsize hne hq hc hv
    rw [turnCommandStep, if_neg hne, if_neg hq, if_neg hc, hsize, hv]

/-- C9, counterexample to the unamended claim: the non-empty input `" "`
makes `validate_coordinate` raise `IndexError` (the `except` clause catches
only `ValueError`), and `"A+5"` — not a row letter followed by a number
`1`-`10` — is accepted and fired as `(0, 4)` because `int("+5") == 5`. -/
theorem validate_coordinate_counterexample :
    validate_coordinate 10 [' '] = .error .indexError ∧
      validate_coordinate 10 ['A', '+', '5'] = .ok (some (0, 4)) ∧
      turnCommandStep emptyBoard ['A', '+', '5'] = .shot 0 4 "miss" none :=
  ⟨rfl, rfl, rfl⟩

/-- Witness for C9 at concrete inputs: `"B5"` does not raise, `" "` raises
`IndexError`, the acceptance characterization at `"B5"`, and `"Z9"` is
answered with the invalid-coordinate re-prompt. -/
theorem validate_coordinate_spec_witness :
    (∃ r, validate_coordinate 10 ['B', '5'] = .ok r) ∧
      validate_coordinate 10 [' '] = .error .indexError ∧
      (validate_coordinate 10 ['B', '5'] = .ok (some (1, 4)) ↔
        ∃ (L : Char) (ds : List Char) (n : Int),
          pyUpper (pyStrip ['B', '5']) = L :: ds ∧ 65 ≤ L.toNat ∧ L.toNat ≤ 74 ∧
          pyInt ds = some n ∧ 1 ≤ n ∧ n ≤ 10 ∧
          (1 : Int) = (L.toNat : Int) - 65 ∧ (4 : Int) = n - 1) ∧
      turnCommandStep emptyBoard ['Z', '9'] = .reply invalidCoordMsg :=
  ⟨validate_coordinate_spec.1 ['B', '5'] (by decide),
   validate_coordinate_spec.2.1 [' '] (by decide) (by decide),
   validate_coordinate_spec.2.2.1 ['B', '5'] 1 4,
   validate_coordinate_spec.2.2.2 emptyBoard ['Z', '9'] rfl (by decide) (by decide)
     (by decide) rfl⟩

/-! ## The match driver's post-turn dispatch (C1, `GameServer.run_game`)

One pass of the `while True` loop body after `run_multi_player_game_online`
returns, as a function of the turn result, the extra result data
(`coord`, `hit_result`, `sunk_name`), and whether a disconnected player
reconnected within the 60 s window.  `players[0]`'s skip flag is
`player1_skipped`.  The loop either continues with a new state (`some`) or
breaks/returns (`none`); the events are everything sent outward. -/

structure MatchState where
  current_player : Nat
  player1_skipped : Bool
  player2_skipped : Bool
deriving DecidableEq

inductive GameEvent
  | packetSend (target : Nat) (msg : String)
  | writeX (target : Nat)
  | closeConn (target : Nat)
  | broadcast (msg : String)
  | broadcastBoard (owner : Nat)
deriving DecidableEq

/-- Skip flag of player `p` (`p = 0` is `player1_skipped`). -/
def skipFlag (st : MatchState) (p : Nat) : Bool :=
  if p = 0 then st.player1_skipped else st.player2_skipped

/-- `players[p][3]`: the username at index `p` of the two-player list. -/
def unameOf (names : String × String) (p : Nat) : String :=
  if p = 0 then names.1 else names.2

def run_game_step (names : String × String) (st : MatchState) (result : String)
    (coord hitRes : String) (sunk : Option String) (recon : Bool) :
    List GameEvent × Option MatchState :=
  let cur := st.current_player
  let uname := unameOf names cur
  let opp_name := unameOf names (1 - cur)
  if result = "game_finished" then
    ([.broadcast s!"Game over! All ships sunk. {uname} wins!",
      .broadcast (uname ++ "'s board state:\n"), .broadcastBoard cur,
      .broadcast (opp_name ++ "'s board state:\n"), .broadcastBoard (1 - cur)], none)
  else if result = "all_forfeit" then ([], none)
  else if result = "player_dc" then
    if recon then ([.packetSend cur s!"5;Welcome back, {uname}"], some st)
    else ([], none)
  else if result = "other_player_dc" then
    if recon then ([.packetSend (1 - cur) s!"5;Welcome back, {opp_name}"], some st)
    else ([], none)
  else
    let tcEvts : List GameEvent :=
      if result = "turn_completed" then
        [.broadcast ((s!"{uname} fired at {coord}: {hitRes}") ++
            (match sunk with | some nm => s!" (Sank {nm})" | none => "")),
         .broadcast (opp_name ++ "'s board state:\n"), .broadcastBoard (1 - cur)]
      else []
    let stc :=
      if result = "turn_completed" then
        if cur = 0 then { st with player1_skipped := false }
        else { st with player2_skipped := false }
      else st
    let st2 := { stc with current_player := 1 - cur }
    if result = "timeout" then
      let evts := [GameEvent.broadcast s!"{uname} has timed out, their turn will be skipped"]
      if st2.current_player = 1 then
        if !st2.player1_skipped then (evts, some { st2 with player1_skipped := true })
        else
          (evts ++ [.packetSend (1 - cur) s!"0;GAME_OVER {uname} is AFK, immediate forfeit, You Win!",
            .writeX cur, .closeConn cur], none)
      else
        if !st2.player2_skipped then (evts, some { st2 with player2_skipped := true })
        else
          (evts ++ [.packetSend (1 - cur) s!"0;GAME_OVER {uname} is AFK, immediate forfeit, You Win!",
            .writeX cur, .closeConn cur], none)
    else (tcEvts, some st2)

/-- C1: a first timeout skips the turn — play passes to the opponent, the
timed-out player's skip flag is set, the other flag is untouched and no
forfeit frame is sent; a timeout with the flag already set sends the
opponent the `0;GAME_OVER ... is AFK, immediate forfeit, You Win!` frame,
writes `X` to the skipper, closes the skipper's connection and ends the
match; a completed turn clears exactly the acting player's flag; and a set
flag survives every continuing step that is not that player's completed
turn (so two timeouts by the same player with no completed turn of theirs
in between forfeit). -/
theorem timeout_skip_twice_forfeit (names : String × String) :
    (∀ (st : MatchState) (p : Nat) (coord hitRes : String) (sunk : Option String)
        (recon : Bool), st.current_player = p → p ≤ 1 → skipFlag st p = false →
        ∃ st', run_game_step names st "timeout" coord hitRes sunk recon =
            ([.broadcast s!"{unameOf names p} has timed out, their turn will be skipped"],
              some st') ∧
          st'.current_player = 1 - p ∧ skipFlag st' p = true ∧
          skipFlag st' (1 - p) = skipFlag st (1 - p)) ∧
    (∀ (st : MatchState) (p : Nat) (coord hitRes : String) (sunk : Option String)
        (recon : Bool), st.current_player = p → p ≤ 1 → skipFlag st p = true →
        run_game_step names st "timeout" coord hitRes sunk recon =
          ([.broadcast s!"{unameOf names p} has timed out, their turn will be skipped",
            .packetSend (1 - p)
              s!"0;GAME_OVER {unameOf names p} is AFK, immediate forfeit, You Win!",
            .writeX p, .closeConn p], none)) ∧
    (∀ (st : MatchState) (p : Nat) (coord hitRes : String) (sunk : Option String)
        (recon : Bool), st.current_player = p → p ≤ 1 →
        ∃ evts st', run_game_step names st "turn_completed" coord hitRes sunk recon
            = (evts, some st') ∧
          st'.current_player = 1 - p ∧ skipFlag st' p = false ∧
          skipFlag st' (1 - p) = skipFlag st (1 - p)) ∧
    (∀ (st : MatchState) (p : Nat) (result coord hitRes : String) (sunk : Option String)
        (recon : Bool) (evts : List GameEvent) (st' : MatchState),
        p ≤ 1 → st.current_player ≤ 1 →
        run_game_step names st result coord hitRes sunk recon = (evts, some st') →
        ¬(st.current_player = p ∧ result = "turn_completed") →
        skipFlag st p = true → skipFlag st' p = true) := by
  refine ⟨?_, ?_, ?_, ?_⟩
  · rintro ⟨cur, f1, f2⟩ p coord hitRes sunk recon hcur hp hflag
    dsimp only at hcur
    subst hcur
    interval_cases cur
    · have hf1 : f1 = false := by simpa [skipFlag] using hflag
      subst hf1
      exact ⟨⟨1, true, f2⟩, rfl, rfl, rfl, rfl⟩
    · have hf2 : f2 = false := by simpa [skipFlag] using hflag
      subst hf2
      exact ⟨⟨0, f1, true⟩, rfl, rfl, rfl, rfl⟩
  · rintro ⟨cur, f1, f2⟩ p coord hitRes sunk recon hcur hp hflag
    dsimp only at hcur
    subst hcur
    interval_cases cur
    · have hf1 : f1 = true := by simpa [skipFlag] using hflag
      subst hf1
      rfl
    · have hf2 : f2 = true := by simpa [skipFlag] using hflag
      subst hf2
      rfl
  · rintro ⟨cur, f1, f2⟩ p coord hitRes sunk recon hcur hp
    dsimp only at hcur
    subst hcur
    interval_cases cur
    · exact ⟨_, ⟨1, false, f2⟩, rfl, rfl, rfl, rfl⟩
    · exact ⟨_, ⟨0, f1, false⟩, rfl, rfl, rfl, rfl⟩
  · rintro ⟨cur, f1, f2⟩ p result coord hitRes sunk recon evts st' hp hcur hstep hnc hflag
    dsimp only at hcur hnc
    by_cases h1 : result = "game_finished"
    · subst h1; simp [run_game_step] at hstep
    by_cases h2 : result = "all_forfeit"
    · subst h2; simp [run_game_step] at hstep
    by_cases h3 : result = "player_dc"
    · subst h3
      cases recon
      · simp [run_game_step] at hstep
      · simp [run_game_step] at hstep
        rw [← hstep.2]
        exact hflag
    by_cases h4 : result = "other_player_dc"
    · subst h4
      cases recon
      · simp [run_game_step] at hstep
      · simp [run_game_step] at hstep
        rw [← hstep.2]
        exact hflag
    by_cases h5 : result = "timeout"
    · subst h5
      interval_cases cur <;> interval_cases p <;> cases f1 <;> cases f2 <;>
        simp_all [run_game_step, skipFlag] <;>
        (obtain ⟨-, h⟩ := hstep; rw [← h])
    by_cases h6 : result = "turn_completed"
    · subst h6
      have hne : cur ≠ p := fun he => hnc ⟨he, rfl⟩
      interval_cases cur <;> interval_cases p <;> cases f1 <;> cases f2 <;>
        simp_all [run_game_step, skipFlag] <;>
        (obtain ⟨-, h⟩ := hstep; rw [← h])
    · simp only [run_game_step, if_neg h1, if_neg h2, if_neg h3, if_neg h4, if_neg h5,
        if_neg h6] at hstep
      simp only [Prod.mk.injEq, Option.some.injEq] at hstep
      rw [← hstep.2]
      interval_cases p <;> simp [skipFlag] <;> simpa [skipFlag] using hflag

/-- The concrete player pair used by the C1 witness. -/
def abNames : String × String := ("alice", "bob")

/-- Witness for C1 with players `alice`/`bob`: a first timeout of player 0,
a second timeout of player 0 with the flag set, a completed turn of
player 1, and flag persistence across a reconnect-continue step. -/
theorem timeout_skip_twice_forfeit_witness :
    (∃ st', run_game_step abNames ⟨0, false, false⟩ "timeout" "A1" "miss" none false =
        ([.broadcast s!"{unameOf abNames 0} has timed out, their turn will be skipped"],
          some st') ∧
      st'.current_player = 1 - 0 ∧ skipFlag st' 0 = true ∧
      skipFlag st' (1 - 0) = skipFlag ⟨0, false, false⟩ (1 - 0)) ∧
    run_game_step abNames ⟨0, true, false⟩ "timeout" "A1" "miss" none false =
      ([.broadcast s!"{unameOf abNames 0} has timed out, their turn will be skipped",
        .packetSend (1 - 0)
          s!"0;GAME_OVER {unameOf abNames 0} is AFK, immediate forfeit, You Win!",
        .writeX 0, .closeConn 0], none) ∧
    (∃ evts st',
      run_game_step abNames ⟨1, false, true⟩ "turn_completed" "A1" "miss" none false
        = (evts, some st') ∧
      st'.current_player = 1 - 1 ∧ skipFlag st' 1 = false ∧
      skipFlag st' (1 - 1) = skipFlag ⟨1, false, true⟩ (1 - 1)) ∧
    skipFlag ⟨0, false, true⟩ 1 = true :=
  ⟨(timeout_skip_twice_forfeit abNames).1 ⟨0, false, false⟩ 0 "A1" "miss"
      none false rfl (by decide) rfl,
   (timeout_skip_twice_forfeit abNames).2.1 ⟨0, true, false⟩ 0 "A1" "miss"
      none false rfl (by decide) rfl,
   (timeout_skip_twice_forfeit abNames).2.2.1 ⟨1, false, true⟩ 1 "A1" "miss"
      none false rfl (by decide),
   (timeout_skip_twice_forfeit abNames).2.2.2 ⟨0, false, true⟩ 1 "player_dc"
      "A1" "miss" none true _ ⟨0, false, true⟩ (by decide) (by decide) rfl
      (by decide) rfl⟩

/-! ## Requeueing survivors (C2, `GameServer.run_game`)

Two distinct requeue sites exist.  After a placement-phase cancellation the
survivors are `appendleft`-ed (prepended) onto `client_queue`; at the end of
`run_game` (all other match endings, including a turn-phase disconnect with
failed reconnect) the survivors are `append`-ed to the back. -/

def placement_cancel_requeue (remaining : List String) (queue : List String) :
    List String :=
  remaining.foldl (fun q p => p :: q) queue

def end_requeue (remaining : List String) (queue : List String) : List String :=
  queue ++ remaining

/-- C2, counterexample to the claim as stated: with a spectator already in
the lobby, the end-of-match requeue used after a turn-phase disconnect
appends the survivor at the back, not the front. -/
theorem survivor_requeue_counterexample :
    end_requeue ["alice"] ["charlie"] = ["charlie", "alice"] ∧
      (end_requeue ["alice"] ["charlie"]).head? ≠ some "alice" :=
  ⟨rfl, by decide⟩

/-- C2 (amended): a placement-phase cancellation leaves the survivor at the
front of the lobby queue; the turn-phase (end-of-match) requeue appends the
survivor at the back, so the survivor is at the front only when the queue
was empty. -/
theorem survivor_requeue (queue : List String) (survivor : String) :
    (placement_cancel_requeue [survivor] queue).head? = some survivor ∧
    end_requeue [survivor] queue = queue ++ [survivor] ∧
    (queue = [] → (end_requeue [survivor] queue).head? = some survivor) := by
  refine ⟨rfl, rfl, ?_⟩
  rintro rfl
  rfl

/-- Witness for C2: the third conjunct applied at the empty queue. -/
theorem survivor_requeue_witness :
    (end_requeue ["alice"] []).head? = some "alice" :=
  (survivor_requeue [] "alice").2.2 rfl

/-! ## Username intake and the reconnect slot (C10, `GameServer.handle_client`)

The intake section of `handle_client`, run under the lobby lock.  `sid`
identifies the fresh connection; `uname` is what the client answers to the
username prompt. -/

structure Session where
  sid : Nat
  uname : String
deriving DecidableEq

structure LobbyState where
  client_queue : List Session
  dced_player : Option String
  rced_player : Option Session
deriving DecidableEq

inductive HandleEv
  | packetSend (msg : List Char)
  | readUsername
  | close
deriving DecidableEq

def MAX_QUEUE_SIZE : Nat := 10

def usernamePrompt : List Char := "1;Please enter your username:".toList

def inQueueNotice : List Char := "2;You're in queue. Waiting for match...".toList

def queueFullNotice : List Char := "2;[NOTICE] Queue is full, please try again later.".toList

def handle_client (st : LobbyState) (sid : Nat) (uname : String) :
    LobbyState × List HandleEv :=
  if st.client_queue.length < MAX_QUEUE_SIZE then
    if some uname = st.dced_player then
      ({ st with rced_player := some ⟨sid, uname⟩ },
       [.packetSend usernamePrompt, .readUsername])
    else
      ({ st with client_queue := st.client_queue ++ [⟨sid, uname⟩] },
       [.packetSend usernamePrompt, .readUsername, .packetSend inQueueNotice])
  else
    (st, [.packetSend queueFullNotice, .close])

/-- A full lobby for the C10 counterexample. -/
def fullLobby : LobbyState :=
  ⟨(List.range 10).map (fun i => ⟨i, "u"⟩), some "bob", none⟩

/-- C10, counterexample to the claim as stated: with the lobby full and
`bob` holding the reconnect window, a fresh connection giving username `bob`
is turned away with the queue-full notice — it is never prompted for a
username and the reconnect slot stays empty. -/
theorem handle_client_counterexample :
    handle_client fullLobby 99 "bob" =
      (fullLobby, [.packetSend queueFullNotice, .close]) ∧
    (handle_client fullLobby 99 "bob").1.rced_player = none ∧
    HandleEv.readUsername ∉ (handle_client fullLobby 99 "bob").2 :=
  ⟨rfl, rfl, by decide⟩

/-- C10 (amended): the capacity check is applied first.  Only when the lobby
holds fewer than 10 clients does the server prompt for and read a username;
then a username equal to the disconnected-player slot is stored in the
reconnect slot and not enqueued, and any other username is appended to the
queue.  When the lobby is full the connection gets the queue-full notice and
is closed without being prompted. -/
theorem handle_client_spec (st : LobbyState) (sid : Nat) (uname : String) :
    (st.client_queue.length < 10 → some uname = st.dced_player →
        handle_client st sid uname =
          ({ st with rced_player := some ⟨sid, uname⟩ },
           [.packetSend usernamePrompt, .readUsername])) ∧
    (st.client_queue.length < 10 → some uname ≠ st.dced_player →
        handle_client st sid uname =
          ({ st with client_queue := st.client_queue ++ [⟨sid, uname⟩] },
           [.packetSend usernamePrompt, .readUsername, .packetSend inQueueNotice])) ∧
    (¬st.client_queue.length < 10 →
        handle_client st sid uname = (st, [.packetSend queueFullNotice, .close])) := by
  refine ⟨fun h1 h2 => ?_, fun h1 h2 => ?_, fun h1 => ?_⟩
  · rw [handle_client, if_pos (by simpa [MAX_QUEUE_SIZE] using h1), if_pos h2]
  · rw [handle_client, if_pos (by simpa [MAX_QUEUE_SIZE] using h1), if_neg h2]
  · rw [handle_client, if_neg (by simpa [MAX_QUEUE_SIZE] using h1)]

/-- Witness for C10: a reconnecting `bob` with room in the lobby goes to the
reconnect slot; with the lobby full the same `bob` is turned away. -/
theorem handle_client_spec_witness :
    handle_client ⟨[], some "bob", none⟩ 7 "bob" =
      ({ client_queue := [], dced_player := some "bob", rced_player := some ⟨7, "bob"⟩ },
       [.packetSend usernamePrompt, .readUsername]) ∧
    handle_client fullLobby 99 "bob" =
      (fullLobby, [.packetSend queueFullNotice, .close]) :=
  ⟨(handle_client_spec ⟨[], some "bob", none⟩ 7 "bob").1 (by decide) rfl,
   (handle_client_spec fullLobby 99 "bob").2.2 (by decide)⟩

/-! ## Active-player disconnect and reconnection (C3)

`GameServer.client_reconnected` polls `self.rced_player` once per second for
up to 60 polls; on seeing a session it replaces every player with a matching
username and clears both slots.  `rced k` is the slot's content at poll `k`.
The `player_dc` arm of `run_game` then sends `5;Welcome back, <uname>` —
through the `rfile`/`wfile` locals bound from `players[current_player]` at
the top of the loop, i.e. the PRE-replacement session — and re-runs the turn
without swapping; on a failed wait it pops the player and breaks. -/

def client_reconnectedAux (rced : Nat → Option Session) (players : List Session) :
    Nat → Nat → Option (List Session × Session)
  | _, 0 => none
  | i, fuel + 1 =>
    match rced i with
    | some s => some (players.map fun q => if q.uname = s.uname then s else q, s)
    | none => client_reconnectedAux rced players (i + 1) fuel

def client_reconnected (rced : Nat → Option Session) (players : List Session) :
    Option (List Session × Session) :=
  client_reconnectedAux rced players 0 60

structure DcOutcome where
  players : List Session
  welcomeTarget : Session
  welcomeMsg : String
  currentAfter : Nat
deriving DecidableEq

/-- The `player_dc` arm of the post-turn dispatch.  `.ok` is the
reconnect-success path (`continue` without swapping); `.error` carries the
player list after `players.pop(current_player)` on the failure path. -/
def player_dc_dispatch (players : List Session) (current : Nat)
    (rced : Nat → Option Session) : Except (List Session) DcOutcome :=
  let old := players.getD current ⟨0, ""⟩
  match client_reconnected rced players with
  | some (players', _) =>
    .ok { players := players', welcomeTarget := old
          welcomeMsg := s!"5;Welcome back, {old.uname}", currentAfter := current }
  | none => .error (players.eraseIdx current)

/-- C3: the code at the failing input.  With players `alice` (session 0) and
`bob` (session 1), `alice` active, and a reconnected `alice` session 2
appearing in the slot at the first poll: the player list is updated to the
new session and the turn is re-run without swapping, but the
`5;Welcome back, alice` frame is addressed to the stale pre-replacement
session 0 — a closed connection — not to the reconnected session 2. -/
theorem player_dc_welcome_target_bug :
    player_dc_dispatch [⟨0, "alice"⟩, ⟨1, "bob"⟩] 0 (fun _ => some ⟨2, "alice"⟩) =
      .ok { players := [⟨2, "alice"⟩, ⟨1, "bob"⟩], welcomeTarget := ⟨0, "alice"⟩
            welcomeMsg := "5;Welcome back, alice", currentAfter := 0 } ∧
    (⟨0, "alice"⟩ : Session) ≠ ⟨2, "alice"⟩ ∧
    player_dc_dispatch [⟨0, "alice"⟩, ⟨1, "bob"⟩] 0 (fun _ => none) =
      .error [⟨1, "bob"⟩] :=
  ⟨rfl, by decide, rfl⟩

end Spec2Proof
